import Mathlib

/-!
# Timezone converter (`client/src/Components/Timezone.jsx`)

A shallow embedding of the state logic of the `Timezone` React component:
the two ordered objects `timezones` and `selectedTimes`, the anchor date
`selectedDate`, the `reverseOrder` flag, and the handlers
`handleTimeChange`, `addNewTimezone`, `removeTimezone`, `onDragEnd`,
`reverseTimezones`, together with what a row (`Container`) renders.

Modelling conventions.

* A JavaScript object with string keys is an insertion-ordered list of
  entries with pairwise distinct keys (`JsObject`).  Every key the component
  ever uses is `"Asia/Kolkata"`, `"UTC"` or a timezone name with `/` replaced
  by `-`; none is a canonical array index, so insertion order is the
  enumeration order of `Object.keys` / `Object.entries`.
* Instants are whole minutes since 1970-01-01T00:00Z (`Int`).  The component
  only ever formats with minute precision (`YYYY-MM-DD HH:mm`, `HH:mm`).
* A wall-clock reading (a `YYYY-MM-DD HH:mm` string) is the number of minutes
  from 1970-01-01 00:00 to that reading, counted on the wall clock.
* moment-timezone is an external library; a zone of its catalog is given by its
  offset at an instant, the offset it selects for a wall-clock reading and its
  abbreviation (`Zone`), and the catalog and the browser zone are parameters
  (`Env`).  `sampleEnv` instantiates them with the rules of four zones around
  2024, transcribed on the library's own lookup algorithms.
* `anchorMidnight`, `reexpress`, `PairConsistent`, `editInstant` and
  `Zone.SteadyNear` are not code of the component: they spell out the words in
  which the properties are stated.
-/

namespace TimezoneConverter

/-! ## JavaScript objects as ordered association lists -/

/-- Insert-or-overwrite on the raw entry list: `obj[k] = v`.  An existing key keeps
its position, a new key goes last. -/
def setEntry {α : Type} (k : String) (v : α) : List (String × α) → List (String × α)
  | [] => [(k, v)]
  | (k', v') :: rest => if k' = k then (k, v) :: rest else (k', v') :: setEntry k v rest

/-- Raw entry list after `delete obj[k]`. -/
def deleteEntry {α : Type} (k : String) : List (String × α) → List (String × α)
  | [] => []
  | (k', v') :: rest => if k' = k then rest else (k', v') :: deleteEntry k rest

/-- Raw property read `obj[k]`; `none` stands for `undefined`. -/
def lookupEntry {α : Type} (k : String) : List (String × α) → Option α
  | [] => none
  | (k', v') :: rest => if k' = k then some v' else lookupEntry k rest

theorem keys_setEntry_of_mem {α : Type} (k : String) (v : α) (l : List (String × α))
    (h : k ∈ l.map Prod.fst) : (setEntry k v l).map Prod.fst = l.map Prod.fst := by
  induction l with
  | nil => simp at h
  | cons e rest ih =>
    obtain ⟨k', v'⟩ := e
    by_cases hk : k' = k
    · simp [setEntry, hk]
    · have : k ∈ rest.map Prod.fst := by
        simp only [List.map_cons, List.mem_cons] at h
        rcases h with h | h
        · exact absurd h.symm hk
        · exact h
      simp [setEntry, hk, ih this]

theorem keys_setEntry_of_not_mem {α : Type} (k : String) (v : α) (l : List (String × α))
    (h : k ∉ l.map Prod.fst) : (setEntry k v l).map Prod.fst = l.map Prod.fst ++ [k] := by
  induction l with
  | nil => simp [setEntry]
  | cons e rest ih =>
    obtain ⟨k', v'⟩ := e
    simp only [List.map_cons, List.mem_cons, not_or] at h
    have hk : ¬ k' = k := fun h' => h.1 h'.symm
    simp [setEntry, hk, ih h.2]

theorem nodup_keys_setEntry {α : Type} (k : String) (v : α) (l : List (String × α))
    (h : (l.map Prod.fst).Nodup) : ((setEntry k v l).map Prod.fst).Nodup := by
  by_cases hk : k ∈ l.map Prod.fst
  · rw [keys_setEntry_of_mem k v l hk]; exact h
  · rw [keys_setEntry_of_not_mem k v l hk]
    exact List.Nodup.append h (List.nodup_singleton k) (by simpa using hk)

theorem keys_deleteEntry {α : Type} (k : String) (l : List (String × α)) :
    (deleteEntry k l).map Prod.fst = (l.map Prod.fst).erase k := by
  induction l with
  | nil => simp [deleteEntry]
  | cons e rest ih =>
    obtain ⟨k', v'⟩ := e
    by_cases hk : k' = k
    · simp [deleteEntry, hk]
    · simp [deleteEntry, hk, List.erase_cons_tail, ih]

theorem nodup_keys_deleteEntry {α : Type} (k : String) (l : List (String × α))
    (h : (l.map Prod.fst).Nodup) : ((deleteEntry k l).map Prod.fst).Nodup := by
  rw [keys_deleteEntry]; exact h.erase k

/-- A JavaScript object with string keys: its entries in enumeration order, no key
twice. -/
structure JsObject (α : Type) where
  entries : List (String × α)
  nodup : (entries.map Prod.fst).Nodup

namespace JsObject

variable {α : Type}

/-- The object literal with no property. -/
def empty : JsObject α := ⟨[], by simp⟩

/-- Keys in enumeration order: `Object.keys(obj)`. -/
def keys (o : JsObject α) : List String := o.entries.map Prod.fst

/-- Property read `obj[k]`. -/
def get? (o : JsObject α) (k : String) : Option α := lookupEntry k o.entries

/-- Property write: `{ ...obj, [k]: v }` and `obj[k] = v` on a fresh copy. -/
def set (o : JsObject α) (k : String) (v : α) : JsObject α :=
  ⟨setEntry k v o.entries, nodup_keys_setEntry k v o.entries o.nodup⟩

/-- Property removal `delete obj[k]` on a fresh copy. -/
def delete (o : JsObject α) (k : String) : JsObject α :=
  ⟨deleteEntry k o.entries, nodup_keys_deleteEntry k o.entries o.nodup⟩

/-- Build an object from an array of entries, later entries overwriting earlier
ones with the same key: `Object.fromEntries(arr)`. -/
def fromEntries (arr : List (String × α)) : JsObject α :=
  arr.foldl (fun o e => o.set e.1 e.2) empty

theorem ext {a b : JsObject α} (h : a.entries = b.entries) : a = b := by
  cases a; cases b; cases h; rfl

/-- Two objects are equal when their entry lists are. -/
instance [DecidableEq α] : DecidableEq (JsObject α) := fun a b =>
  decidable_of_iff (a.entries = b.entries) ⟨ext, fun h => h ▸ rfl⟩

end JsObject

/-! ## Clock and calendar formatting (moment format tokens) -/

/-- Two-digit decimal rendering with a leading zero (tokens `HH`, `mm`). -/
def pad2 (n : Nat) : String :=
  if n < 10 then "0" ++ toString n else toString n

/-- Minute of the day, in `[0, 1440)`, of a wall-clock reading. -/
def minuteOfDay (wall : Int) : Nat := (wall % 1440).toNat

/-- Day number (days since 1970-01-01) of a wall-clock reading. -/
def dayOf (wall : Int) : Int := wall / 1440

/-- Token string `HH:mm` applied to a wall-clock reading. -/
def formatHHmm (wall : Int) : String :=
  pad2 (minuteOfDay wall / 60) ++ ":" ++ pad2 (minuteOfDay wall % 60)

/-- Token string `h:mm A` applied to a wall-clock reading (12-hour clock). -/
def formatHmmA (wall : Int) : String :=
  let h := minuteOfDay wall / 60
  let h12 := if h % 12 = 0 then 12 else h % 12
  toString h12 ++ ":" ++ pad2 (minuteOfDay wall % 60) ++ (if h < 12 then " AM" else " PM")

/-- Token `Z` applied to a UTC offset in minutes east of Greenwich: `+05:30`. -/
def formatZ (offset : Int) : String :=
  (if offset < 0 then "-" else "+") ++ pad2 (offset.natAbs / 60) ++ ":" ++ pad2 (offset.natAbs % 60)

/-- Year, month (1..12) and day of month of a day number, proleptic Gregorian
calendar. -/
def civilFromDays (days : Int) : Int × Nat × Nat :=
  let z := days + 719468
  let era := z / 146097
  let doe := (z - era * 146097).toNat
  let yoe := (doe - doe / 1460 + doe / 36524 - doe / 146096) / 365
  let doy := doe - (365 * yoe + yoe / 4 - yoe / 100)
  let mp := (5 * doy + 2) / 153
  let d := doy - (153 * mp + 2) / 5 + 1
  let m := if mp < 10 then mp + 3 else mp - 9
  (((yoe : Int) + era * 400) + (if m ≤ 2 then 1 else 0), m, d)

/-- Day number of a calendar date, proleptic Gregorian calendar. -/
def daysFromCivil (y : Int) (m d : Nat) : Int :=
  let y' := if m ≤ 2 then y - 1 else y
  let era := y' / 400
  let yoe := (y' - era * 400).toNat
  let doy := (153 * (if m > 2 then m - 3 else m + 9) + 2) / 5 + d - 1
  let doe := yoe * 365 + yoe / 4 - yoe / 100 + doy
  era * 146097 + (doe : Int) - 719468

/-- Minute count of the reading `y-m-d hh:mm` (an instant when read in UTC). -/
def minutesOf (y : Int) (m d hh mm : Nat) : Int :=
  daysFromCivil y m d * 1440 + (hh * 60 + mm : Nat)

/-- Token `ddd`: short weekday name; 1970-01-01 was a Thursday. -/
def weekdayShort (days : Int) : String :=
  match ((days + 4) % 7).toNat with
  | 0 => "Sun" | 1 => "Mon" | 2 => "Tue" | 3 => "Wed" | 4 => "Thu" | 5 => "Fri" | _ => "Sat"

/-- Token `MMMM`: full month name. -/
def monthName (m : Nat) : String :=
  match m with
  | 1 => "January" | 2 => "February" | 3 => "March" | 4 => "April" | 5 => "May"
  | 6 => "June" | 7 => "July" | 8 => "August" | 9 => "September" | 10 => "October"
  | 11 => "November" | _ => "December"

/-- Token string `ddd D, MMMM` applied to a wall-clock reading: `Mon 15, January`. -/
def formatDddDMMMM (wall : Int) : String :=
  let c := civilFromDays (dayOf wall)
  weekdayShort (dayOf wall) ++ " " ++ toString c.2.2 ++ ", " ++ monthName c.2.1

/-- Value of a run of decimal digits. -/
def digitsValue (cs : List Char) : Nat :=
  cs.foldl (fun acc c => acc * 10 + (c.toNat - 48)) 0

/-- Minutes of `moment.duration(s).asMinutes()` for a string of the shape
`digits:digits` (hours, minutes), the only shape the component passes: stored
`HH:mm` times and the `h:mm` option values.  Any other string gives the zero
duration. -/
def durationAsMinutes (s : String) : Nat :=
  let hs := s.data.takeWhile (fun c => c ≠ ':')
  let rest := s.data.dropWhile (fun c => c ≠ ':')
  match rest with
  | ':' :: ms =>
    if hs ≠ [] ∧ ms ≠ [] ∧ hs.all Char.isDigit ∧ ms.all Char.isDigit then
      digitsValue hs * 60 + digitsValue ms
    else 0
  | _ => 0

/-! ## The timezone catalog and moment objects -/

/-- A zone of the moment-timezone catalog, reduced to what the component uses.
Offsets are minutes east of Greenwich (the sign of moment's `utcOffset()`).
`utcOffset t` is the offset in force at instant `t`, `abbr t` the abbreviation in
force at `t`, and `parse w` the offset the library selects for the wall-clock
reading `w` (the library's `Zone.parse`), which decides readings that fall in a gap
or an overlap of the zone. -/
structure Zone where
  utcOffset : Int → Int
  parse : Int → Int
  abbr : Int → String

/-- What the component takes from its environment: the catalog lookup (`none` for a
name the catalog has no data for) and the zone of the browser. -/
structure Env where
  getZone : String → Option Zone
  localZone : Zone

/-- A moment object: an instant, the offset it is displayed at and the abbreviation
shown by token `z`. -/
structure Moment where
  instant : Int
  offset : Int
  abbr : String

namespace Moment

/-- The wall-clock reading a moment formats. -/
def wall (m : Moment) : Int := m.instant + m.offset

/-- Method `.tz(name)`: switch the display zone.  For a name without data the
library logs an error and leaves the moment as it is. -/
def tz (env : Env) (m : Moment) (name : String) : Moment :=
  match env.getZone name with
  | some z => ⟨m.instant, z.utcOffset m.instant, z.abbr m.instant⟩
  | none => m

end Moment

/-- A moment in UTC mode: `moment.utc(...)`. -/
def momentUtc (instant : Int) : Moment := ⟨instant, 0, "UTC"⟩

/-- A moment in local mode at an instant: `moment(date)`, `moment()`. -/
def momentLocal (env : Env) (instant : Int) : Moment :=
  ⟨instant, env.localZone.utcOffset instant, env.localZone.abbr instant⟩

/-- Local-mode parse of a `YYYY-MM-DD HH:mm` reading: `moment(string)`. -/
def momentLocalParse (env : Env) (reading : Int) : Moment :=
  momentLocal env (reading - env.localZone.parse reading)

/-- Call `moment.tz(string, name)`: the reading is taken as wall-clock time of the
named zone.  The string is first parsed as UTC, shifted by the zone's `parse` when
the catalog has the zone, and the result is switched to the zone.  `name` is `none`
when the argument is `undefined`; the library then keeps the UTC parse. -/
def momentTzParse (env : Env) (reading : Int) (name : Option String) : Moment :=
  match name with
  | none => momentUtc reading
  | some n =>
    match env.getZone n with
    | some z => (momentUtc (reading - z.parse reading)).tz env n
    | none => (momentUtc reading).tz env n

/-- Call `moment.tz(name)` with the zone name alone: the current instant in UTC mode,
switched to the zone. -/
def momentTzNow (env : Env) (now : Int) (name : String) : Moment :=
  (momentUtc now).tz env name

/-- The string `moment(selectedDate).startOf('day').add(value, 'minutes')
.format('YYYY-MM-DD HH:mm')` as a wall-clock reading.  `startOf('day')` is local
midnight of the local calendar day of `selectedDate`; adding minutes moves the
instant; the result is formatted on the local clock. -/
def updatedDateTime (env : Env) (selectedDate : Int) (value : Int) : Int :=
  let midnight := dayOf (momentLocal env selectedDate).wall * 1440
  let startOfDay := midnight - env.localZone.parse midnight
  (momentLocal env (startOfDay + value)).wall

/-! ## Component state and handlers -/

/-- The `useState` cells of `Timezone` that the handlers read and write. -/
structure State where
  selectedTimes : JsObject String
  selectedDate : Int
  reverseOrder : Bool
  timezones : JsObject String

/-- Source `generateInitialTimes`: current `HH:mm` in the two default zones. -/
def generateInitialTimes (env : Env) (now : Int) : JsObject String :=
  (JsObject.empty.set "Asia/Kolkata"
      (formatHHmm ((momentLocal env now).tz env "Asia/Kolkata").wall)).set "UTC"
    (formatHHmm ((momentLocal env now).tz env "UTC").wall)

/-- Source `generateInitialTimezones`. -/
def generateInitialTimezones : JsObject String :=
  (JsObject.empty.set "Asia/Kolkata" "Asia/Kolkata").set "UTC" "UTC"

/-- State of the first render at instant `now`. -/
def initialState (env : Env) (now : Int) : State :=
  ⟨generateInitialTimes env now, now, false, generateInitialTimezones⟩

/-- Source `getTimezoneAbbr`. -/
def getTimezoneAbbr (env : Env) (now : Int) (zone : String) : String :=
  (momentTzNow env now zone).abbr

/-- Source `getTimezoneOffset`. -/
def getTimezoneOffset (env : Env) (now : Int) (zone : String) : String :=
  "GMT " ++ formatZ (momentTzNow env now zone).offset

/-- Source `handleDateChange`. -/
def handleDateChange (s : State) (date : Int) : State :=
  { s with selectedDate := date }

/-- Source `handleTimeChange`.  `Object.keys(timezones).forEach(tz => ...)` reads
`timezones[tz]` for each key, so the loop runs over the entries of `timezones`. -/
def handleTimeChange (env : Env) (s : State) (zone : String) (value : Int) : State :=
  let reading := updatedDateTime env s.selectedDate value
  let updatedTimes := s.selectedTimes.set zone (formatHHmm (momentLocalParse env reading).wall)
  let updatedTimes := s.timezones.entries.foldl
    (fun acc e =>
      if e.1 ≠ zone then
        acc.set e.1 (formatHHmm ((momentTzParse env reading (s.timezones.get? zone)).tz env e.2).wall)
      else acc)
    updatedTimes
  { s with selectedTimes := updatedTimes }

/-- Global replace of one character by another: `s.replace(/c/g, d)`. -/
def replaceAll (s : String) (c d : Char) : String :=
  String.mk (s.data.map (fun x => if x = c then d else x))

/-- Source `addNewTimezone`, called with `option.value = label` at instant `now`. -/
def addNewTimezone (env : Env) (now : Int) (s : State) (label : String) : State :=
  let zone := replaceAll label '/' '-'
  { s with
    timezones := s.timezones.set zone label
    selectedTimes := s.selectedTimes.set zone (formatHHmm ((momentLocal env now).tz env label).wall) }

/-- Source `removeTimezone`. -/
def removeTimezone (s : State) (zone : String) : State :=
  { s with
    selectedTimes := s.selectedTimes.delete zone
    timezones := s.timezones.delete zone }

/-- Source `reverseTimezones`. -/
def reverseTimezones (s : State) : State :=
  { s with reverseOrder := !s.reverseOrder }

/-- Source `timezoneEntries`: the entries of `selectedTimes`, reversed when
`reverseOrder` is set.  The rows are rendered in this order. -/
def timezoneEntries (s : State) : List (String × String) :=
  if s.reverseOrder then s.selectedTimes.entries.reverse else s.selectedTimes.entries

/-- The keys of the rows in the order they are displayed. -/
def displayedOrder (s : State) : List String := (timezoneEntries s).map Prod.fst

/-- Method `Array.prototype.findIndex`: the first index satisfying `p`, or `-1`. -/
def findIndex {α : Type} (p : α → Bool) : List α → Int
  | [] => -1
  | a :: l => if p a then 0 else (if findIndex p l < 0 then -1 else findIndex p l + 1)

/-- The actual start index of `Array.prototype.splice` on an array of `len`
elements. -/
def spliceStart (len : Nat) (start : Int) : Nat :=
  if start < 0 then ((len : Int) + start).toNat else min start.toNat len

/-- Function `arrayMove(array, from, to)` of `@dnd-kit/sortable`:
`newArray.splice(to < 0 ? newArray.length + to : to, 0, newArray.splice(from, 1)[0])`.
The insertion index is computed before the inner `splice` removes the element.
The result is `none` when the inner `splice` removes nothing, in which case the
library inserts `undefined`. -/
def arrayMove {α : Type} (array : List α) (fromIndex toIndex : Int) : Option (List α) :=
  let target := if toIndex < 0 then (array.length : Int) + toIndex else toIndex
  let i := spliceStart array.length fromIndex
  match array.get? i with
  | none => none
  | some x =>
    let rest := array.eraseIdx i
    let j := spliceStart rest.length target
    some (rest.take j ++ x :: rest.drop j)

/-- Source `onDragEnd`, called with `active.id` and `over.id`.  When `arrayMove`
yields an array holding `undefined`, `Object.fromEntries` throws and the state is
not written. -/
def onDragEnd (s : State) (activeId overId : String) : State :=
  if activeId ≠ overId then
    let oldIndex := findIndex (fun e => decide (e.1 = activeId)) (timezoneEntries s)
    let newIndex := findIndex (fun e => decide (e.1 = overId)) (timezoneEntries s)
    match arrayMove (timezoneEntries s) oldIndex newIndex with
    | some reorderedEntries => { s with selectedTimes := JsObject.fromEntries reorderedEntries }
    | none => s
  else s

/-! ## What a row renders -/

/-- The parts of a `Container` row that depend on the state. -/
structure Row where
  abbr : String
  label : String
  placeholder : String
  offset : String
  date : String

/-- Source `formatDisplayTime` of `Container`. -/
def formatDisplayTime (env : Env) (s : State) (zone : String) (minutes : Int) : String :=
  formatHmmA (momentTzParse env (updatedDateTime env s.selectedDate minutes) (s.timezones.get? zone)).wall

/-- Source `formatDisplayDate` of `Container`. -/
def formatDisplayDate (env : Env) (s : State) (zone : String) (minutes : Int) : String :=
  formatDddDMMMM (momentTzParse env (updatedDateTime env s.selectedDate minutes) (s.timezones.get? zone)).wall

/-- Source `Container`, rendered for the entry `(zone, time)` at instant `now`; its
`localTime` is `moment.duration(time, 'HH:mm').asMinutes()`.  The abbreviation is
computed from `timezones[zone]` (`UTC` when that is `undefined`), the offset from
`zone`. -/
def Container (env : Env) (now : Int) (s : State) (zone time : String) : Row :=
  let localTime : Int := durationAsMinutes time
  { abbr := match s.timezones.get? zone with
      | some name => getTimezoneAbbr env now name
      | none => (momentUtc now).abbr
    label := replaceAll zone '-' '/'
    placeholder := formatDisplayTime env s zone localTime
    offset := getTimezoneOffset env now zone
    date := formatDisplayDate env s zone localTime }

/-- The rows of one render, in display order. -/
def render (env : Env) (now : Int) (s : State) : List Row :=
  (timezoneEntries s).map (fun e => Container env now s e.1 e.2)

/-! ## Reachable states -/

/-- The states the component can be in: the first render at some instant, followed
by any sequence of handler calls.  `handleTimeChange` is called from a rendered
row, whose key is a key of `selectedTimes`; a key of `timezones` is admitted as
well.  The other handlers take any argument. -/
inductive Reachable (env : Env) : State → Prop
  | init (now : Int) : Reachable env (initialState env now)
  | date (s : State) (d : Int) : Reachable env s → Reachable env (handleDateChange s d)
  | edit (s : State) (zone : String) (value : Int) :
      Reachable env s → zone ∈ s.timezones.keys ∨ zone ∈ s.selectedTimes.keys →
      Reachable env (handleTimeChange env s zone value)
  | add (s : State) (now : Int) (label : String) :
      Reachable env s → Reachable env (addNewTimezone env now s label)
  | remove (s : State) (zone : String) : Reachable env s → Reachable env (removeTimezone s zone)
  | drag (s : State) (activeId overId : String) :
      Reachable env s → Reachable env (onDragEnd s activeId overId)
  | reverse (s : State) : Reachable env s → Reachable env (reverseTimezones s)

/-! ## The notions in which consistency is stated -/

/-- The reading `00:00` of the anchor date: the local calendar day of
`selectedDate`. -/
def anchorMidnight (env : Env) (s : State) : Int :=
  dayOf (momentLocal env s.selectedDate).wall * 1440

/-- The stored time of key `z1`, taken on the anchor date as wall-clock time of the
zone of `z1`, converted to an instant and re-expressed as `HH:mm` in the zone of
`z2`.  `none` when `z1` has no stored time or one of the keys has no zone. -/
def reexpress (env : Env) (s : State) (z1 z2 : String) : Option String :=
  match s.selectedTimes.get? z1, s.timezones.get? z1, s.timezones.get? z2 with
  | some t1, some id1, some id2 =>
    some (formatHHmm ((momentTzParse env (anchorMidnight env s + durationAsMinutes t1)
      (some id1)).tz env id2).wall)
  | _, _, _ => none

/-- The pair `z1`, `z2` is consistent: the stored time of `z1`, re-expressed in the
zone of `z2`, is the stored time of `z2`. -/
def PairConsistent (env : Env) (s : State) (z1 z2 : String) : Prop :=
  (reexpress env s z1 z2).isSome = true ∧ reexpress env s z1 z2 = s.selectedTimes.get? z2

instance (env : Env) (s : State) (z1 z2 : String) : Decidable (PairConsistent env s z1 z2) := by
  unfold PairConsistent
  infer_instance

/-- The instant of an edit: the reading built from the anchor date and `value`,
taken as wall-clock time of the zone of `zone`. -/
def editInstant (env : Env) (s : State) (zone : String) (value : Int) : Int :=
  (momentTzParse env (updatedDateTime env s.selectedDate value) (s.timezones.get? zone)).instant

/-- The zone keeps the one offset `c`, for instants and for readings, within `r`
minutes of `a`. -/
def Zone.SteadyNear (z : Zone) (c a r : Int) : Prop :=
  ∀ t, a - r ≤ t → t ≤ a + r → z.utcOffset t = c ∧ z.parse t = c

/-! ## A sample environment: four zones of the catalog with their rules around 2024 -/

/-- A zone with one offset for all time. -/
def fixedZone (abbr : String) (offset : Int) : Zone :=
  ⟨fun _ => offset, fun _ => offset, fun _ => abbr⟩

/-- Offset in force at instant `t` in a table of spans `(upto, offset, abbr)`, each
ending at instant `upto`, followed by a last span without end (the library's
`Zone.utcOffset`). -/
def tableUtcOffset : List (Int × Int × String) → Int → Int → Int
  | [], last, _ => last
  | (upto, off, _) :: rest, last, t => if t < upto then off else tableUtcOffset rest last t

/-- Abbreviation in force at instant `t` (the library's `Zone.abbr`). -/
def tableAbbr : List (Int × Int × String) → String → Int → String
  | [], last, _ => last
  | (upto, _, ab) :: rest, last, t => if t < upto then ab else tableAbbr rest last t

/-- Offset selected for the wall-clock reading `w` (the library's `Zone.parse`, with
its defaults `moveInvalidForward = true`, `moveAmbiguousForward = false`): a span
whose offset is below the previous one ends, for this purpose, on the previous
offset's clock, so a reading inside a spring-forward gap is taken on the offset in
force before the gap.  `prev` is the offset of the span before the head. -/
def tableParse (prev : Int) : List (Int × Int × String) → Int → Int → Int
  | [], last, _ => last
  | (upto, off, _) :: rest, last, w =>
    if w < upto + (if off < prev then prev else off) then off
    else tableParse off rest last w

/-- A zone given by its spans. -/
def tableZone (spans : List (Int × Int × String)) (lastOffset : Int) (lastAbbr : String) : Zone :=
  ⟨tableUtcOffset spans lastOffset,
   tableParse (match spans with | [] => lastOffset | (_, off, _) :: _ => off) spans lastOffset,
   tableAbbr spans lastAbbr⟩

/-- Zone `America/New_York` from March 2023 on: EST (UTC-5) and EDT (UTC-4), with
the switches of 2023 to 2025. -/
def newYork : Zone :=
  tableZone
    [(minutesOf 2023 3 12 7 0, -300, "EST"), (minutesOf 2023 11 5 6 0, -240, "EDT"),
     (minutesOf 2024 3 10 7 0, -300, "EST"), (minutesOf 2024 11 3 6 0, -240, "EDT"),
     (minutesOf 2025 3 9 7 0, -300, "EST"), (minutesOf 2025 11 2 6 0, -240, "EDT")]
    (-300) "EST"

/-- The library's name normalisation before a catalog lookup: lower case, `/`
replaced by `_`. -/
def normalizeName (name : String) : String :=
  String.mk (name.data.map (fun c => if c = '/' then '_' else c.toLower))

/-- Catalog lookup of the sample environment. -/
def sampleGetZone (name : String) : Option Zone :=
  if normalizeName name = "utc" then some (fixedZone "UTC" 0)
  else if normalizeName name = "asia_kolkata" then some (fixedZone "IST" 330)
  else if normalizeName name = "asia_tokyo" then some (fixedZone "JST" 540)
  else if normalizeName name = "america_new_york" then some newYork
  else none

/-- Sample environment: the four zones above, browser zone `UTC`. -/
def sampleEnv : Env := ⟨sampleGetZone, fixedZone "UTC" 0⟩

/-! ## Sample states -/

/-- The instant 2024-06-01T10:07Z, used as "now" in the sample runs. -/
def sampleNow : Int := minutesOf 2024 6 1 10 7

/-- First render at `sampleNow`, then the date picker set to 2024-01-15. -/
def januaryState : State :=
  handleDateChange (initialState sampleEnv sampleNow) (minutesOf 2024 1 15 0 0)

/-- The two default zones plus `Asia/Tokyo` and `America/New_York`, added in that
order at `sampleNow`. -/
def fourZones : State :=
  addNewTimezone sampleEnv sampleNow
    (addNewTimezone sampleEnv sampleNow (initialState sampleEnv sampleNow) "Asia/Tokyo")
    "America/New_York"

/-- The four sample zones with the date picker set to 2024-03-10, the day New York
switches to daylight-saving time (02:00 EST becomes 03:00 EDT). -/
def marchState : State :=
  handleDateChange fourZones (minutesOf 2024 3 10 0 0)

/-- The four sample zones with the date picker set to 2024-01-15. -/
def januaryFourZones : State :=
  handleDateChange fourZones (minutesOf 2024 1 15 0 0)

/-- The state in which a zone was added after an edit: anchor date 2024-01-15, `UTC`
edited to 23:45, then `America/New_York` added at `sampleNow` (06:07 in New York). -/
def addedAfterEdit : State :=
  addNewTimezone sampleEnv sampleNow (handleTimeChange sampleEnv januaryState "UTC" 1425)
    "America/New_York"

/-! ## The sample states are reachable -/

theorem reachable_januaryState : Reachable sampleEnv januaryState :=
  Reachable.date _ _ (Reachable.init sampleNow)

theorem reachable_fourZones : Reachable sampleEnv fourZones :=
  Reachable.add _ sampleNow "America/New_York"
    (Reachable.add _ sampleNow "Asia/Tokyo" (Reachable.init sampleNow))

theorem reachable_marchState : Reachable sampleEnv marchState :=
  Reachable.date _ _ reachable_fourZones

theorem reachable_addedAfterEdit : Reachable sampleEnv addedAfterEdit :=
  Reachable.add _ sampleNow "America/New_York"
    (Reachable.edit _ "UTC" 1425 reachable_januaryState (Or.inl (by decide)))

/-! ## Facts about objects -/

theorem lookupEntry_setEntry_self {α : Type} (k : String) (v : α) (l : List (String × α)) :
    lookupEntry k (setEntry k v l) = some v := by
  induction l with
  | nil => simp [setEntry, lookupEntry]
  | cons e rest ih =>
    obtain ⟨k', v'⟩ := e
    by_cases hk : k' = k
    · simp [setEntry, lookupEntry, hk]
    · simp [setEntry, lookupEntry, hk, ih]

theorem lookupEntry_setEntry_of_ne {α : Type} (k k' : String) (v : α) (l : List (String × α))
    (h : k' ≠ k) : lookupEntry k' (setEntry k v l) = lookupEntry k' l := by
  induction l with
  | nil => simp [setEntry, lookupEntry, Ne.symm h]
  | cons e rest ih =>
    obtain ⟨k1, v1⟩ := e
    by_cases hk : k1 = k
    · subst hk
      simp [setEntry, lookupEntry, Ne.symm h]
    · by_cases hk' : k1 = k'
      · subst hk'
        simp [setEntry, lookupEntry, hk]
      · simp [setEntry, lookupEntry, hk, hk', ih]

theorem deleteEntry_eq_filter {α : Type} (k : String) (l : List (String × α))
    (h : (l.map Prod.fst).Nodup) :
    deleteEntry k l = l.filter (fun e => decide (e.1 ≠ k)) := by
  induction l with
  | nil => simp [deleteEntry]
  | cons e rest ih =>
    obtain ⟨k', v'⟩ := e
    simp only [List.map_cons, List.nodup_cons] at h
    by_cases hk : k' = k
    · subst hk
      have hall : ∀ e ∈ rest, decide (e.1 ≠ k') = true := by
        intro e he
        have : e.1 ≠ k' := fun hc => h.1 (hc ▸ List.mem_map_of_mem Prod.fst he)
        simpa using this
      have hf := List.filter_eq_self.mpr hall
      simp only [deleteEntry, if_true, List.filter_cons]
      simpa using hf.symm
    · simp [deleteEntry, hk, ih h.2]

theorem lookupEntry_eq_none_of_not_mem {α : Type} (k : String) (l : List (String × α))
    (h : k ∉ l.map Prod.fst) : lookupEntry k l = none := by
  induction l with
  | nil => simp [lookupEntry]
  | cons e rest ih =>
    obtain ⟨k', v'⟩ := e
    simp only [List.map_cons, List.mem_cons, not_or] at h
    have hk : ¬ k' = k := fun h' => h.1 h'.symm
    simp [lookupEntry, hk, ih h.2]

theorem lookupEntry_deleteEntry_of_ne {α : Type} (k k' : String) (l : List (String × α))
    (h : k' ≠ k) : lookupEntry k' (deleteEntry k l) = lookupEntry k' l := by
  induction l with
  | nil => simp [deleteEntry]
  | cons e rest ih =>
    obtain ⟨k1, v1⟩ := e
    by_cases hk : k1 = k
    · subst hk
      simp [deleteEntry, lookupEntry, Ne.symm h]
    · by_cases hk' : k1 = k'
      · subst hk'
        simp [deleteEntry, lookupEntry, hk]
      · simp [deleteEntry, lookupEntry, hk, hk', ih]

theorem not_mem_keys_delete {α : Type} (o : JsObject α) (k : String) :
    k ∉ (o.delete k).keys := by
  unfold JsObject.keys JsObject.delete
  rw [keys_deleteEntry]
  exact fun hc => (List.Nodup.mem_erase_iff o.nodup).mp hc |>.1 rfl

/-! ## Removal (C7) -/

/-- C7.  `removeTimezone(zone)` leaves a timezone set and a stored-times mapping
that are the old ones without the entry of `zone`: the remaining entries keep
their keys, values and order, `zone` is a key of neither, every other key reads as
before, the anchor date and the reverse flag are untouched, and when `zone` was the
only key the result is empty.  The handler is total, so it never fails. -/
theorem removeTimezone_spec (s : State) (zone : String) :
    (removeTimezone s zone).timezones.entries
        = s.timezones.entries.filter (fun e => decide (e.1 ≠ zone))
    ∧ (removeTimezone s zone).selectedTimes.entries
        = s.selectedTimes.entries.filter (fun e => decide (e.1 ≠ zone))
    ∧ zone ∉ (removeTimezone s zone).timezones.keys
    ∧ zone ∉ (removeTimezone s zone).selectedTimes.keys
    ∧ (∀ k, k ≠ zone →
        (removeTimezone s zone).timezones.get? k = s.timezones.get? k
        ∧ (removeTimezone s zone).selectedTimes.get? k = s.selectedTimes.get? k)
    ∧ (removeTimezone s zone).selectedDate = s.selectedDate
    ∧ (removeTimezone s zone).reverseOrder = s.reverseOrder
    ∧ (s.timezones.keys = [zone] → s.selectedTimes.keys = [zone] →
        (removeTimezone s zone).timezones.entries = []
        ∧ (removeTimezone s zone).selectedTimes.entries = []) := by
  have htz : (removeTimezone s zone).timezones.entries
      = s.timezones.entries.filter (fun e => decide (e.1 ≠ zone)) :=
    deleteEntry_eq_filter zone _ s.timezones.nodup
  have hst : (removeTimezone s zone).selectedTimes.entries
      = s.selectedTimes.entries.filter (fun e => decide (e.1 ≠ zone)) :=
    deleteEntry_eq_filter zone _ s.selectedTimes.nodup
  refine ⟨htz, hst, not_mem_keys_delete _ _, not_mem_keys_delete _ _, ?_, rfl, rfl, ?_⟩
  · intro k hk
    exact ⟨lookupEntry_deleteEntry_of_ne zone k _ hk, lookupEntry_deleteEntry_of_ne zone k _ hk⟩
  · intro h1 h2
    have aux : ∀ l : List (String × String), l.map Prod.fst = [zone] →
        l.filter (fun e => decide (e.1 ≠ zone)) = [] := by
      intro l hl
      match l, hl with
      | [(k, v)], hl =>
        have : k = zone := by simpa using hl
        simp [this]
    exact ⟨htz.trans (aux _ h1), hst.trans (aux _ h2)⟩

/-- Witness for C7: the default state without `Asia/Kolkata` has `UTC` as its only
key; removing `UTC` leaves both objects empty. -/
theorem removeTimezone_spec_witness :
    (removeTimezone (removeTimezone (initialState sampleEnv sampleNow) "Asia/Kolkata") "UTC").timezones.entries = []
    ∧ (removeTimezone (removeTimezone (initialState sampleEnv sampleNow) "Asia/Kolkata") "UTC").selectedTimes.entries = [] :=
  (removeTimezone_spec (removeTimezone (initialState sampleEnv sampleNow) "Asia/Kolkata") "UTC").2.2.2.2.2.2.2
    (by decide) (by decide)

/-! ## Row label and row offset (C9, C10) -/

/-- C9 at the input `America/Port-au-Prince`.  In every environment and state,
`addNewTimezone` files the zone under the key `America-Port-au-Prince`, and the row
of that key shows the label `America/Port/au/Prince`, which is not the identifier
that was added: the hyphens of the identifier come back as slashes. -/
theorem label_of_hyphenated_zone (env : Env) (now : Int) (s : State) (time : String) :
    (addNewTimezone env now s "America/Port-au-Prince").timezones.get? "America-Port-au-Prince"
        = some "America/Port-au-Prince"
    ∧ (Container env now (addNewTimezone env now s "America/Port-au-Prince")
          "America-Port-au-Prince" time).label = "America/Port/au/Prince"
    ∧ (Container env now (addNewTimezone env now s "America/Port-au-Prince")
          "America-Port-au-Prince" time).label ≠ "America/Port-au-Prince" := by
  refine ⟨?_, ?_, ?_⟩
  · have hkey : replaceAll "America/Port-au-Prince" '/' '-' = "America-Port-au-Prince" := by
      decide
    show lookupEntry "America-Port-au-Prince"
      (setEntry (replaceAll "America/Port-au-Prince" '/' '-') "America/Port-au-Prince"
        s.timezones.entries) = some "America/Port-au-Prince"
    rw [hkey]
    exact lookupEntry_setEntry_self _ _ _
  · show replaceAll "America-Port-au-Prince" '-' '/' = "America/Port/au/Prince"
    decide
  · show replaceAll "America-Port-au-Prince" '-' '/' ≠ "America/Port-au-Prince"
    decide

/-- C10 at the input `Asia/Tokyo`.  After `Asia/Tokyo` is added to the default state,
the render shows for its key `Asia-Tokyo` the abbreviation `JST` of
`timezones[key]`, but the offset `GMT +00:00`: `getTimezoneOffset` is given the
key, for which the catalog has no data, while the offset of the row's zone is
`GMT +09:00`. -/
theorem row_offset_of_added_zone :
    (addNewTimezone sampleEnv sampleNow (initialState sampleEnv sampleNow) "Asia/Tokyo").timezones.entries
        = [("Asia/Kolkata", "Asia/Kolkata"), ("UTC", "UTC"), ("Asia-Tokyo", "Asia/Tokyo")]
    ∧ (render sampleEnv sampleNow
          (addNewTimezone sampleEnv sampleNow (initialState sampleEnv sampleNow) "Asia/Tokyo")).map
          (fun r => (r.label, r.abbr, r.offset))
        = [("Asia/Kolkata", "IST", "GMT +05:30"), ("UTC", "UTC", "GMT +00:00"),
           ("Asia/Tokyo", "JST", "GMT +00:00")]
    ∧ getTimezoneOffset sampleEnv sampleNow "Asia-Tokyo" = "GMT +00:00"
    ∧ getTimezoneOffset sampleEnv sampleNow "Asia/Tokyo" = "GMT +09:00" := by
  decide

/-! ## Drag reorder (C5) -/

/-- C5 at a state with the reverse toggle on.  With the toggle off the four rows are
displayed as `[Asia/Kolkata, UTC, Asia-Tokyo, America-New_York]` and dragging the
last onto `UTC` displays `[Asia/Kolkata, America-New_York, UTC, Asia-Tokyo]`, the
list move.  With the toggle on the rows are displayed as
`[America-New_York, Asia-Tokyo, UTC, Asia/Kolkata]`; dragging `Asia/Kolkata` onto
`Asia-Tokyo` should display `[America-New_York, Asia/Kolkata, Asia-Tokyo, UTC]`,
and the component displays the reverse of that list. -/
theorem onDragEnd_reversed_display :
    Reachable sampleEnv (reverseTimezones fourZones)
    ∧ displayedOrder fourZones = ["Asia/Kolkata", "UTC", "Asia-Tokyo", "America-New_York"]
    ∧ displayedOrder (onDragEnd fourZones "America-New_York" "UTC")
        = ["Asia/Kolkata", "America-New_York", "UTC", "Asia-Tokyo"]
    ∧ displayedOrder (reverseTimezones (onDragEnd fourZones "America-New_York" "UTC"))
        = ["Asia-Tokyo", "UTC", "America-New_York", "Asia/Kolkata"]
    ∧ displayedOrder (reverseTimezones fourZones)
        = ["America-New_York", "Asia-Tokyo", "UTC", "Asia/Kolkata"]
    ∧ arrayMove (displayedOrder (reverseTimezones fourZones)) 3 1
        = some ["America-New_York", "Asia/Kolkata", "Asia-Tokyo", "UTC"]
    ∧ displayedOrder (onDragEnd (reverseTimezones fourZones) "Asia/Kolkata" "Asia-Tokyo")
        = ["UTC", "Asia-Tokyo", "Asia/Kolkata", "America-New_York"] :=
  ⟨Reachable.reverse _ reachable_fourZones, by decide⟩

/-! ## Displayed date across midnight (C2) -/

/-- C2 at the spec's own input.  Anchor date 2024-01-15, `UTC` edited to 23:45
(1425 minutes).  The stored time of `Asia/Kolkata` becomes `05:15`; the instant of
the edit, read on the clock of `Asia/Kolkata`, falls on Tuesday 16 January; the
next render shows, for `Asia/Kolkata`, the time `5:15 AM` and the date
`Mon 15, January`. -/
theorem displayed_date_across_midnight :
    Reachable sampleEnv januaryState
    ∧ (handleTimeChange sampleEnv januaryState "UTC" 1425).selectedTimes.entries
        = [("Asia/Kolkata", "05:15"), ("UTC", "23:45")]
    ∧ formatDddDMMMM ((momentUtc (editInstant sampleEnv januaryState "UTC" 1425)).tz
          sampleEnv "Asia/Kolkata").wall = "Tue 16, January"
    ∧ (render sampleEnv sampleNow (handleTimeChange sampleEnv januaryState "UTC" 1425)).map
          (fun r => (r.label, r.placeholder, r.date))
        = [("Asia/Kolkata", "5:15 AM", "Mon 15, January"), ("UTC", "11:45 PM", "Mon 15, January")]
    ∧ formatDisplayDate sampleEnv (handleTimeChange sampleEnv januaryState "UTC" 1425)
          "Asia/Kolkata" (durationAsMinutes "05:15") = "Mon 15, January" :=
  ⟨reachable_januaryState, by decide⟩

/-! ## Key sets of the two objects (C8) -/

theorem mem_keys_setEntry {α : Type} (k k' : String) (v : α) (l : List (String × α)) :
    k' ∈ (setEntry k v l).map Prod.fst ↔ k' = k ∨ k' ∈ l.map Prod.fst := by
  by_cases hk : k ∈ l.map Prod.fst
  · rw [keys_setEntry_of_mem k v l hk]
    constructor
    · exact Or.inr
    · rintro (h | h)
      · exact h ▸ hk
      · exact h
  · rw [keys_setEntry_of_not_mem k v l hk]
    simp only [List.mem_append, List.mem_singleton]
    tauto

theorem mem_keys_deleteEntry {α : Type} (k k' : String) (l : List (String × α))
    (h : (l.map Prod.fst).Nodup) :
    k' ∈ (deleteEntry k l).map Prod.fst ↔ k' ≠ k ∧ k' ∈ l.map Prod.fst := by
  rw [keys_deleteEntry]
  exact List.Nodup.mem_erase_iff h

/-- The entries of a conditional fold of property writes, computed on raw lists. -/
theorem entries_foldl_set {α β : Type} (p : β → Bool) (f : β → String) (g : β → α)
    (l : List β) (init : JsObject α) :
    (l.foldl (fun acc e => if p e then acc.set (f e) (g e) else acc) init).entries
      = l.foldl (fun acc e => if p e then setEntry (f e) (g e) acc else acc) init.entries := by
  induction l generalizing init with
  | nil => rfl
  | cons e rest ih =>
    simp only [List.foldl_cons]
    by_cases hp : p e = true
    · simp only [hp, if_true]
      rw [ih]
      rfl
    · simp only [hp]
      exact ih init

theorem mem_keys_foldl_setEntry {α β : Type} (p : β → Bool) (f : β → String) (g : β → α)
    (l : List β) (init : List (String × α)) (k : String) :
    k ∈ (l.foldl (fun acc e => if p e then setEntry (f e) (g e) acc else acc) init).map Prod.fst
      ↔ k ∈ init.map Prod.fst ∨ ∃ e ∈ l, p e = true ∧ f e = k := by
  induction l generalizing init with
  | nil => simp
  | cons e rest ih =>
    simp only [List.foldl_cons]
    rw [ih]
    by_cases hp : p e = true
    · simp only [hp, if_true, mem_keys_setEntry, List.mem_cons, exists_eq_or_imp, true_and]
      constructor
      · rintro ((h | h) | h)
        · exact Or.inr (Or.inl h.symm)
        · exact Or.inl h
        · exact Or.inr (Or.inr h)
      · rintro (h | h | h)
        · exact Or.inl (Or.inr h)
        · exact Or.inl (Or.inl h.symm)
        · exact Or.inr h
    · simp only [hp, List.mem_cons, exists_eq_or_imp, false_and, false_or]
      simp

/-- The raw entries written by `handleTimeChange`. -/
theorem handleTimeChange_entries (env : Env) (s : State) (zone : String) (value : Int) :
    (handleTimeChange env s zone value).selectedTimes.entries
      = s.timezones.entries.foldl
          (fun acc e =>
            if decide (e.1 ≠ zone) then
              setEntry e.1
                (formatHHmm ((momentTzParse env (updatedDateTime env s.selectedDate value)
                  (s.timezones.get? zone)).tz env e.2).wall) acc
            else acc)
          (setEntry zone
            (formatHHmm (momentLocalParse env (updatedDateTime env s.selectedDate value)).wall)
            s.selectedTimes.entries) := by
  have h := entries_foldl_set (fun e : String × String => decide (e.1 ≠ zone)) (fun e => e.1)
    (fun e => formatHHmm ((momentTzParse env (updatedDateTime env s.selectedDate value)
        (s.timezones.get? zone)).tz env e.2).wall)
    s.timezones.entries
    (s.selectedTimes.set zone
      (formatHHmm (momentLocalParse env (updatedDateTime env s.selectedDate value)).wall))
  simpa [handleTimeChange] using h

theorem mem_keys_handleTimeChange (env : Env) (s : State) (zone : String) (value : Int)
    (k : String) :
    k ∈ (handleTimeChange env s zone value).selectedTimes.keys
      ↔ k = zone ∨ k ∈ s.selectedTimes.keys ∨ k ∈ s.timezones.keys := by
  unfold JsObject.keys
  rw [handleTimeChange_entries, mem_keys_foldl_setEntry, mem_keys_setEntry]
  constructor
  · rintro ((h | h) | ⟨e, he, _, rfl⟩)
    · exact Or.inl h
    · exact Or.inr (Or.inl h)
    · exact Or.inr (Or.inr (List.mem_map_of_mem Prod.fst he))
  · rintro (h | h | h)
    · exact Or.inl (Or.inl h)
    · exact Or.inl (Or.inr h)
    · by_cases hk : k = zone
      · exact Or.inl (Or.inl hk)
      · obtain ⟨e, he, rfl⟩ := List.mem_map.mp h
        exact Or.inr ⟨e, he, by simpa using hk, rfl⟩

theorem setEntry_of_not_mem {α : Type} (k : String) (v : α) (l : List (String × α))
    (h : k ∉ l.map Prod.fst) : setEntry k v l = l ++ [(k, v)] := by
  induction l with
  | nil => simp [setEntry]
  | cons e rest ih =>
    obtain ⟨k', v'⟩ := e
    simp only [List.map_cons, List.mem_cons, not_or] at h
    have hk : ¬ k' = k := fun h' => h.1 h'.symm
    simp [setEntry, hk, ih h.2]

/-- An array of entries with distinct keys is the entry list of the object built
from it. -/
theorem foldl_set_entries_of_nodup (l : List (String × String)) (init : JsObject String)
    (h : ((init.entries ++ l).map Prod.fst).Nodup) :
    (l.foldl (fun o e => o.set e.1 e.2) init).entries = init.entries ++ l := by
  induction l generalizing init with
  | nil => simp
  | cons e rest ih =>
    simp only [List.foldl_cons]
    have hnot : e.1 ∉ init.entries.map Prod.fst := by
      intro hc
      rw [List.map_append, List.map_cons] at h
      exact (List.nodup_append.mp h).2.2 hc (List.mem_cons_self _ _)
    have hset : (init.set e.1 e.2).entries = init.entries ++ [e] :=
      setEntry_of_not_mem e.1 e.2 init.entries hnot
    rw [ih (init.set e.1 e.2) (by rw [hset]; simpa using h), hset]
    simp

theorem fromEntries_entries_of_nodup (l : List (String × String))
    (h : (l.map Prod.fst).Nodup) : (JsObject.fromEntries l).entries = l := by
  have := foldl_set_entries_of_nodup l JsObject.empty (by simpa [JsObject.empty] using h)
  simpa [JsObject.fromEntries, JsObject.empty] using this

theorem arrayMove_perm {α : Type} (l r : List α) (i j : Int) (h : arrayMove l i j = some r) :
    r.Perm l := by
  unfold arrayMove at h
  simp only at h
  split at h
  · exact absurd h (by simp)
  · rename_i x hx
    simp only [Option.some.injEq] at h
    subst h
    have h1 : (List.take
        (spliceStart (l.eraseIdx (spliceStart l.length i)).length
          (if j < 0 then (l.length : Int) + j else j))
        (l.eraseIdx (spliceStart l.length i)) ++ x ::
        List.drop
          (spliceStart (l.eraseIdx (spliceStart l.length i)).length
            (if j < 0 then (l.length : Int) + j else j))
          (l.eraseIdx (spliceStart l.length i))).Perm
        (x :: l.eraseIdx (spliceStart l.length i)) := by
      refine List.perm_middle.trans ?_
      rw [List.take_append_drop]
    refine h1.trans ?_
    generalize spliceStart l.length i = n at hx
    clear h1
    induction l generalizing n with
    | nil => simp at hx
    | cons a rest ih =>
      cases n with
      | zero =>
        simp only [List.get?_cons_zero, Option.some.injEq] at hx
        subst hx
        simp
      | succ m =>
        simp only [List.get?_cons_succ] at hx
        simp only [List.eraseIdx_cons_succ]
        exact (List.Perm.swap a x _).trans ((ih m hx).cons a)

/-- What `onDragEnd` stores when the dragged key differs from the target and
`arrayMove` finds an element to move: the moved array of displayed entries. -/
theorem onDragEnd_entries (s : State) (a b : String) (r : List (String × String))
    (hab : a ≠ b)
    (h : arrayMove (timezoneEntries s)
          (findIndex (fun e => decide (e.1 = a)) (timezoneEntries s))
          (findIndex (fun e => decide (e.1 = b)) (timezoneEntries s)) = some r) :
    (onDragEnd s a b).selectedTimes.entries = r := by
  have hperm := arrayMove_perm _ _ _ _ h
  have hnd : ((timezoneEntries s).map Prod.fst).Nodup := by
    unfold timezoneEntries
    split
    · rw [List.map_reverse]
      exact List.nodup_reverse.mpr s.selectedTimes.nodup
    · exact s.selectedTimes.nodup
  have hr : (r.map Prod.fst).Nodup := ((hperm.map Prod.fst).nodup_iff).mpr hnd
  simp only [onDragEnd, hab, ne_eq, not_false_eq_true, if_true, h]
  exact fromEntries_entries_of_nodup r hr

theorem keys_perm_onDragEnd (s : State) (a b : String) :
    (onDragEnd s a b).selectedTimes.keys.Perm s.selectedTimes.keys := by
  by_cases hab : a = b
  · simp [onDragEnd, hab]
  · cases h : arrayMove (timezoneEntries s)
          (findIndex (fun e => decide (e.1 = a)) (timezoneEntries s))
          (findIndex (fun e => decide (e.1 = b)) (timezoneEntries s)) with
    | none => simp [onDragEnd, hab, h]
    | some r =>
      unfold JsObject.keys
      rw [onDragEnd_entries s a b r hab h]
      refine ((arrayMove_perm _ _ _ _ h).map Prod.fst).trans ?_
      unfold timezoneEntries
      split
      · exact (List.reverse_perm _).map Prod.fst
      · exact List.Perm.refl _

theorem mem_keys_iff_of_reachable (env : Env) (s : State) (h : Reachable env s) :
    ∀ k, k ∈ s.selectedTimes.keys ↔ k ∈ s.timezones.keys := by
  induction h with
  | init now =>
    intro k
    simp [initialState, generateInitialTimes, generateInitialTimezones, JsObject.keys,
      JsObject.set, JsObject.empty, setEntry]
  | date s d _ ih => exact ih
  | edit s zone value _ hz ih =>
    intro k
    rw [mem_keys_handleTimeChange]
    show _ ↔ k ∈ s.timezones.keys
    have hz' : zone ∈ s.timezones.keys := by
      rcases hz with hz | hz
      · exact hz
      · exact (ih zone).mp hz
    constructor
    · rintro (h | h | h)
      · exact h ▸ hz'
      · exact (ih k).mp h
      · exact h
    · exact fun h => Or.inr (Or.inr h)
  | add s now label _ ih =>
    intro k
    show k ∈ (setEntry _ _ s.selectedTimes.entries).map Prod.fst
      ↔ k ∈ (setEntry _ _ s.timezones.entries).map Prod.fst
    rw [mem_keys_setEntry, mem_keys_setEntry]
    exact or_congr Iff.rfl (ih k)
  | remove s zone _ ih =>
    intro k
    show k ∈ (deleteEntry zone s.selectedTimes.entries).map Prod.fst
      ↔ k ∈ (deleteEntry zone s.timezones.entries).map Prod.fst
    rw [mem_keys_deleteEntry _ _ _ s.selectedTimes.nodup,
      mem_keys_deleteEntry _ _ _ s.timezones.nodup]
    exact and_congr Iff.rfl (ih k)
  | drag s a b _ ih =>
    intro k
    have hsame : (onDragEnd s a b).timezones = s.timezones := by
      unfold onDragEnd
      split
      · simp only
        split <;> rfl
      · rfl
    rw [hsame, (keys_perm_onDragEnd s a b).mem_iff]
    exact ih k
  | reverse s _ ih => exact ih

/-- C8.  In the state of the first render and in every state reached from it by
`handleDateChange`, `addNewTimezone`, `removeTimezone`, `handleTimeChange` on a key
of `timezones`, `onDragEnd` and `reverseTimezones`, the objects `selectedTimes` and
`timezones` have the same keys: the two key lists are permutations of each other,
and a string is a key of one exactly when it is a key of the other. -/
theorem key_set_invariant (env : Env) (s : State) (h : Reachable env s) :
    s.selectedTimes.keys.Perm s.timezones.keys
    ∧ ∀ k, k ∈ s.selectedTimes.keys ↔ k ∈ s.timezones.keys :=
  ⟨(List.perm_ext_iff_of_nodup s.selectedTimes.nodup s.timezones.nodup).mpr
      (mem_keys_iff_of_reachable env s h),
    mem_keys_iff_of_reachable env s h⟩

/-- Witness for C8: add two zones, drag, edit, remove, reverse. -/
theorem key_set_invariant_witness :
    (reverseTimezones (removeTimezone (handleTimeChange sampleEnv
        (onDragEnd fourZones "America-New_York" "UTC") "Asia-Tokyo" 600) "UTC")).selectedTimes.keys.Perm
      (reverseTimezones (removeTimezone (handleTimeChange sampleEnv
        (onDragEnd fourZones "America-New_York" "UTC") "Asia-Tokyo" 600) "UTC")).timezones.keys
    ∧ ∀ k, k ∈ (reverseTimezones (removeTimezone (handleTimeChange sampleEnv
        (onDragEnd fourZones "America-New_York" "UTC") "Asia-Tokyo" 600) "UTC")).selectedTimes.keys
      ↔ k ∈ (reverseTimezones (removeTimezone (handleTimeChange sampleEnv
        (onDragEnd fourZones "America-New_York" "UTC") "Asia-Tokyo" 600) "UTC")).timezones.keys :=
  key_set_invariant sampleEnv _
    (Reachable.reverse _ (Reachable.remove _ "UTC"
      (Reachable.edit _ "Asia-Tokyo" 600
        (Reachable.drag _ "America-New_York" "UTC"
          (Reachable.add _ sampleNow "America/New_York"
            (Reachable.add _ sampleNow "Asia/Tokyo" (Reachable.init sampleNow))))
        (Or.inl (by decide)))))

/-! ## Two edits of the same key in a row (C4, and where C3 fails) -/

theorem setEntry_setEntry {α : Type} (k : String) (v v' : α) (l : List (String × α)) :
    setEntry k v' (setEntry k v l) = setEntry k v' l := by
  induction l with
  | nil => simp [setEntry]
  | cons e rest ih =>
    obtain ⟨k1, v1⟩ := e
    by_cases hk : k1 = k
    · simp [setEntry, hk]
    · simp [setEntry, hk, ih]

theorem setEntry_comm {α : Type} (a k : String) (x v : α) (l : List (String × α))
    (hak : a ≠ k) (hk : k ∈ l.map Prod.fst) :
    setEntry k v (setEntry a x l) = setEntry a x (setEntry k v l) := by
  induction l with
  | nil => simp at hk
  | cons e rest ih =>
    obtain ⟨k1, v1⟩ := e
    by_cases h1 : k1 = k
    · subst h1
      have : ¬ k1 = a := fun h => hak h.symm
      simp [setEntry, this, hak]
    · have hk' : k ∈ rest.map Prod.fst := by
        simp only [List.map_cons, List.mem_cons] at hk
        rcases hk with h | h
        · exact absurd h.symm h1
        · exact h
      by_cases h2 : k1 = a
      · subst h2
        simp [setEntry, h1]
      · simp [setEntry, h1, h2, ih hk']

/-- A write to a key that is already present commutes with a fold of writes to
other keys. -/
theorem setEntry_foldl_comm {α β : Type} (p : β → Bool) (f : β → String) (g : β → α)
    (r : List β) (k : String) (v : α) (m : List (String × α))
    (hr : ∀ e ∈ r, p e = true → f e ≠ k) (hk : k ∈ m.map Prod.fst) :
    setEntry k v (r.foldl (fun acc e => if p e then setEntry (f e) (g e) acc else acc) m)
      = r.foldl (fun acc e => if p e then setEntry (f e) (g e) acc else acc) (setEntry k v m) := by
  induction r generalizing m with
  | nil => rfl
  | cons e rest ih =>
    have hrest : ∀ e' ∈ rest, p e' = true → f e' ≠ k :=
      fun e' he' => hr e' (List.mem_cons_of_mem _ he')
    simp only [List.foldl_cons]
    by_cases hp : p e = true
    · simp only [hp, if_true]
      have hne : f e ≠ k := hr e (List.mem_cons_self _ _) hp
      rw [ih (setEntry (f e) (g e) m) hrest ((mem_keys_setEntry _ _ _ _).mpr (Or.inr hk)),
        setEntry_comm (f e) k (g e) v m hne hk]
    · simp only [hp]
      exact ih m hrest hk

/-- A fold of writes over distinct keys overwrites everything an earlier fold over
the same keys wrote. -/
theorem foldl_setEntry_absorb {α β : Type} (p : β → Bool) (f : β → String) (g g' : β → α)
    (r : List β) (m : List (String × α)) (hnd : (r.map f).Nodup) :
    r.foldl (fun acc e => if p e then setEntry (f e) (g' e) acc else acc)
        (r.foldl (fun acc e => if p e then setEntry (f e) (g e) acc else acc) m)
      = r.foldl (fun acc e => if p e then setEntry (f e) (g' e) acc else acc) m := by
  induction r generalizing m with
  | nil => rfl
  | cons e rest ih =>
    simp only [List.map_cons, List.nodup_cons] at hnd
    simp only [List.foldl_cons]
    by_cases hp : p e = true
    · simp only [hp, if_true]
      have hrest : ∀ e' ∈ rest, p e' = true → f e' ≠ f e := by
        intro e' he' _ hc
        exact hnd.1 (hc ▸ List.mem_map_of_mem f he')
      rw [setEntry_foldl_comm p f g rest (f e) (g' e) (setEntry (f e) (g e) m) hrest
          ((mem_keys_setEntry _ _ _ _).mpr (Or.inl rfl)),
        setEntry_setEntry]
      exact ih _ hnd.2
    · simp only [hp]
      exact ih m hnd.2

/-- An edit of `zone` overwrites whatever an earlier edit of `zone` stored: the
state after `handleTimeChange(zone, value)` followed by `handleTimeChange(zone,
value')` is the state after `handleTimeChange(zone, value')` alone. -/
theorem handleTimeChange_absorb (env : Env) (s : State) (zone : String) (value value' : Int) :
    handleTimeChange env (handleTimeChange env s zone value) zone value'
      = handleTimeChange env s zone value' := by
  have hfields : ∀ a b : State, a.selectedTimes.entries = b.selectedTimes.entries →
      a.selectedDate = b.selectedDate → a.reverseOrder = b.reverseOrder →
      a.timezones = b.timezones → a = b := by
    intro a b h1 h2 h3 h4
    cases a; cases b
    simp only at h1 h2 h3 h4
    subst h2 h3 h4
    rw [JsObject.ext h1]
  apply hfields
  · rw [handleTimeChange_entries, handleTimeChange_entries env s zone value']
    show List.foldl _ (setEntry zone _ (handleTimeChange env s zone value).selectedTimes.entries)
        s.timezones.entries = _
    rw [handleTimeChange_entries env s zone value]
    have hzone : ∀ e ∈ s.timezones.entries, decide (e.1 ≠ zone) = true → e.1 ≠ zone := by
      intro e _ h
      simpa using h
    rw [setEntry_foldl_comm (fun e : String × String => decide (e.1 ≠ zone)) (fun e => e.1) _
        s.timezones.entries zone _ _ hzone ((mem_keys_setEntry _ _ _ _).mpr (Or.inl rfl)),
      setEntry_setEntry]
    exact foldl_setEntry_absorb (fun e : String × String => decide (e.1 ≠ zone)) (fun e => e.1)
      _ _ s.timezones.entries _ s.timezones.nodup
  · rfl
  · rfl
  · rfl

/-- C4.  For every state, key and value, `handleTimeChange(zone, value)` applied
twice in a row gives the state, and so the stored-times mapping, that one
application gives. -/
theorem handleTimeChange_idempotent (env : Env) (s : State) (zone : String) (value : Int) :
    handleTimeChange env (handleTimeChange env s zone value) zone value
        = handleTimeChange env s zone value
    ∧ (handleTimeChange env (handleTimeChange env s zone value) zone value).selectedTimes
        = (handleTimeChange env s zone value).selectedTimes := by
  have h := handleTimeChange_absorb env s zone value value
  exact ⟨h, by rw [h]⟩

/-- C3 as stated fails in `addedAfterEdit`.  The stored time of `UTC` is `23:45`,
that is 1425 minutes; editing `UTC` to 10:00 and back to 1425 leaves
`America-New_York` at `18:45`, while it held `06:07` before. -/
theorem round_trip_counterexample :
    Reachable sampleEnv addedAfterEdit
    ∧ "UTC" ∈ addedAfterEdit.timezones.keys
    ∧ addedAfterEdit.selectedTimes.get? "UTC" = some "23:45"
    ∧ durationAsMinutes "23:45" = 1425
    ∧ addedAfterEdit.selectedTimes.entries
        = [("Asia/Kolkata", "05:15"), ("UTC", "23:45"), ("America-New_York", "06:07")]
    ∧ (handleTimeChange sampleEnv (handleTimeChange sampleEnv addedAfterEdit "UTC" 600) "UTC"
          1425).selectedTimes.entries
        = [("Asia/Kolkata", "05:15"), ("UTC", "23:45"), ("America-New_York", "18:45")]
    ∧ ¬ (handleTimeChange sampleEnv (handleTimeChange sampleEnv addedAfterEdit "UTC" 600) "UTC"
          (durationAsMinutes "23:45")).selectedTimes = addedAfterEdit.selectedTimes :=
  ⟨reachable_addedAfterEdit, by decide⟩

/-! ## Consistency of the stored times (C1, C6) -/

theorem formatHHmm_congr (a b : Int) (h : minuteOfDay a = minuteOfDay b) :
    formatHHmm a = formatHHmm b := by
  unfold formatHHmm
  rw [h]

set_option maxRecDepth 100000 in
theorem durationAsMinutes_pad2 : ∀ h, h < 24 → ∀ m, m < 60 →
    durationAsMinutes (pad2 h ++ ":" ++ pad2 m) = h * 60 + m := by
  decide

theorem minuteOfDay_lt (w : Int) : minuteOfDay w < 1440 := by
  unfold minuteOfDay
  omega

/-- Reading a formatted `HH:mm` back gives the minute of the day. -/
theorem durationAsMinutes_formatHHmm (w : Int) :
    durationAsMinutes (formatHHmm w) = minuteOfDay w := by
  have hlt := minuteOfDay_lt w
  unfold formatHHmm
  rw [durationAsMinutes_pad2 (minuteOfDay w / 60) (by omega) (minuteOfDay w % 60) (by omega)]
  omega

theorem lookupEntry_of_mem {α : Type} (k : String) (v : α) (l : List (String × α))
    (hnd : (l.map Prod.fst).Nodup) (h : (k, v) ∈ l) : lookupEntry k l = some v := by
  induction l with
  | nil => simp at h
  | cons e rest ih =>
    obtain ⟨k1, v1⟩ := e
    simp only [List.map_cons, List.nodup_cons] at hnd
    rcases List.mem_cons.mp h with h | h
    · cases h
      simp [lookupEntry]
    · have hk : ¬ k1 = k := by
        intro hc
        exact hnd.1 (hc ▸ List.mem_map_of_mem Prod.fst h)
      simp [lookupEntry, hk, ih hnd.2 h]

theorem lookupEntry_foldl_of_not_written {α β : Type} (p : β → Bool) (f : β → String)
    (g : β → α) (l : List β) (init : List (String × α)) (k : String)
    (h : ∀ e ∈ l, p e = true → f e ≠ k) :
    lookupEntry k (l.foldl (fun acc e => if p e then setEntry (f e) (g e) acc else acc) init)
      = lookupEntry k init := by
  induction l generalizing init with
  | nil => rfl
  | cons e rest ih =>
    have hrest : ∀ e' ∈ rest, p e' = true → f e' ≠ k :=
      fun e' he' => h e' (List.mem_cons_of_mem _ he')
    simp only [List.foldl_cons]
    rw [ih _ hrest]
    by_cases hp : p e = true
    · simp only [hp, if_true]
      exact lookupEntry_setEntry_of_ne _ _ _ _ (h e (List.mem_cons_self _ _) hp).symm
    · simp only [hp]
      rfl

theorem lookupEntry_foldl_of_written {α β : Type} (p : β → Bool) (f : β → String)
    (g : β → α) (l : List β) (init : List (String × α)) (e : β)
    (hnd : (l.map f).Nodup) (he : e ∈ l) (hp : p e = true) :
    lookupEntry (f e) (l.foldl (fun acc e => if p e then setEntry (f e) (g e) acc else acc) init)
      = some (g e) := by
  induction l generalizing init with
  | nil => simp at he
  | cons a rest ih =>
    simp only [List.map_cons, List.nodup_cons] at hnd
    simp only [List.foldl_cons]
    rcases List.mem_cons.mp he with h | h
    · subst h
      have hrest : ∀ e' ∈ rest, p e' = true → f e' ≠ f e := by
        intro e' he' _ hc
        exact hnd.1 (hc ▸ List.mem_map_of_mem f he')
      rw [lookupEntry_foldl_of_not_written p f g rest _ (f e) hrest]
      simp only [hp, if_true]
      exact lookupEntry_setEntry_self _ _ _
    · exact ih _ hnd.2 h

/-- The stored time of the edited key after `handleTimeChange`. -/
theorem handleTimeChange_get_zone (env : Env) (s : State) (zone : String) (value : Int) :
    (handleTimeChange env s zone value).selectedTimes.get? zone
      = some (formatHHmm (momentLocalParse env (updatedDateTime env s.selectedDate value)).wall) := by
  unfold JsObject.get?
  rw [handleTimeChange_entries,
    lookupEntry_foldl_of_not_written (fun e : String × String => decide (e.1 ≠ zone))
      (fun e => e.1) _ s.timezones.entries _ zone (by intro e _ h; simpa using h)]
  exact lookupEntry_setEntry_self _ _ _

/-- The stored time of every other key of `timezones` after `handleTimeChange`. -/
theorem handleTimeChange_get_other (env : Env) (s : State) (zone : String) (value : Int)
    (k name : String) (hmem : (k, name) ∈ s.timezones.entries) (hk : k ≠ zone) :
    (handleTimeChange env s zone value).selectedTimes.get? k
      = some (formatHHmm ((momentTzParse env (updatedDateTime env s.selectedDate value)
          (s.timezones.get? zone)).tz env name).wall) := by
  unfold JsObject.get?
  rw [handleTimeChange_entries]
  exact lookupEntry_foldl_of_written (fun e : String × String => decide (e.1 ≠ zone))
    (fun e => e.1)
    (fun e => formatHHmm ((momentTzParse env (updatedDateTime env s.selectedDate value)
          (lookupEntry zone s.timezones.entries)).tz env e.2).wall)
    s.timezones.entries _ (k, name) s.timezones.nodup hmem (by simpa using hk)

theorem updatedDateTime_of_steady (env : Env) (sel value cL : Int)
    (hv0 : 0 ≤ value) (hv1 : value < 1440) (hcL : -1440 ≤ cL ∧ cL ≤ 1440)
    (hloc : env.localZone.SteadyNear cL sel 4320) :
    updatedDateTime env sel value = (sel + cL) / 1440 * 1440 + value := by
  have h1 := (hloc sel (by omega) (by omega)).1
  have h2 := (hloc ((sel + cL) / 1440 * 1440) (by omega) (by omega)).2
  have h3 := (hloc ((sel + cL) / 1440 * 1440 - cL + value) (by omega) (by omega)).1
  simp only [updatedDateTime, momentLocal, Moment.wall, dayOf, h1, h2, h3]
  omega

theorem momentLocalParse_wall_of_steady (env : Env) (sel reading cL : Int)
    (hcL : -1440 ≤ cL ∧ cL ≤ 1440) (hloc : env.localZone.SteadyNear cL sel 4320)
    (hr : sel - 2880 ≤ reading ∧ reading ≤ sel + 2880) :
    (momentLocalParse env reading).wall = reading := by
  have h1 := (hloc reading (by omega) (by omega)).2
  have h2 := (hloc (reading - cL) (by omega) (by omega)).1
  simp only [momentLocalParse, momentLocal, Moment.wall, h1, h2]
  omega

theorem momentTzParse_instant_of_steady (env : Env) (name : String) (z : Zone)
    (sel reading c : Int) (hz : env.getZone name = some z) (hst : z.SteadyNear c sel 4320)
    (hr : sel - 4320 ≤ reading ∧ reading ≤ sel + 4320) :
    (momentTzParse env reading (some name)).instant = reading - c := by
  have h1 := (hst reading hr.1 hr.2).2
  simp only [momentTzParse, hz, Moment.tz, momentUtc, h1]

theorem tz_wall_of_steady (env : Env) (name : String) (z : Zone) (m : Moment)
    (sel c : Int) (hz : env.getZone name = some z) (hst : z.SteadyNear c sel 4320)
    (hr : sel - 4320 ≤ m.instant ∧ m.instant ≤ sel + 4320) :
    (m.tz env name).wall = m.instant + c := by
  have h1 := (hst m.instant hr.1 hr.2).1
  simp only [Moment.tz, hz, Moment.wall, h1]

theorem exists_entry_of_mem_keys {α : Type} (o : JsObject α) (k : String) (h : k ∈ o.keys) :
    ∃ v, (k, v) ∈ o.entries ∧ o.get? k = some v := by
  obtain ⟨e, he, rfl⟩ := List.mem_map.mp h
  exact ⟨e.2, he, lookupEntry_of_mem e.1 e.2 o.entries o.nodup he⟩

/-- After an edit, in an environment whose zones are steady around the anchor date,
the stored time of a key of `timezones` whose zone has offset `c` is the `HH:mm` of
the reading `anchor midnight + value`, moved from the offset `cZ` of the edited
zone to `c`. -/
theorem stored_after_edit_of_steady (env : Env) (s : State) (zone : String) (value cL : Int)
    (hv0 : 0 ≤ value) (hv1 : value < 1440)
    (hcL : -1440 ≤ cL ∧ cL ≤ 1440) (hloc : env.localZone.SteadyNear cL s.selectedDate 4320)
    (nameZ : String) (zZ : Zone) (cZ : Int) (hmemZ : (zone, nameZ) ∈ s.timezones.entries)
    (hzZ : env.getZone nameZ = some zZ) (hcZ : -1440 ≤ cZ ∧ cZ ≤ 1440)
    (hstZ : zZ.SteadyNear cZ s.selectedDate 4320)
    (k name : String) (z : Zone) (c : Int) (hmem : (k, name) ∈ s.timezones.entries)
    (hz : env.getZone name = some z) (hst : z.SteadyNear c s.selectedDate 4320) :
    (handleTimeChange env s zone value).selectedTimes.get? k
      = some (formatHHmm ((s.selectedDate + cL) / 1440 * 1440 + value - cZ + c)) := by
  have hR := updatedDateTime_of_steady env s.selectedDate value cL hv0 hv1 hcL hloc
  have hgetZ : s.timezones.get? zone = some nameZ :=
    lookupEntry_of_mem zone nameZ _ s.timezones.nodup hmemZ
  by_cases hk : k = zone
  · subst hk
    have hname : name = nameZ := by
      have h1 := lookupEntry_of_mem k name _ s.timezones.nodup hmem
      have h2 : lookupEntry k s.timezones.entries = some nameZ := hgetZ
      rw [h1] at h2
      exact Option.some.inj h2
    subst hname
    have hzeq : z = zZ := Option.some.inj (hz.symm.trans hzZ)
    subst hzeq
    have hc : c = cZ :=
      ((hst s.selectedDate (by omega) (by omega)).1).symm.trans
        (hstZ s.selectedDate (by omega) (by omega)).1
    rw [handleTimeChange_get_zone, hR,
      momentLocalParse_wall_of_steady env s.selectedDate _ cL hcL hloc (by omega)]
    congr 2
    omega
  · rw [handleTimeChange_get_other env s zone value k name hmem hk, hR, hgetZ]
    have hi := momentTzParse_instant_of_steady env nameZ zZ s.selectedDate
      ((s.selectedDate + cL) / 1440 * 1440 + value) cZ hzZ hstZ (by omega)
    rw [tz_wall_of_steady env name z _ s.selectedDate c hz hst (by rw [hi]; omega), hi]

/-- C1 as stated fails.  Anchor date 2024-03-10, key `America-New_York` edited to
02:30 (150 minutes), a reading that New York's clock skips.  The stored times
become `13:00`, `07:30`, `16:30` and `02:30`; the stored time of `UTC`, re-expressed
in New York, is `03:30`, not the stored `02:30`, and `02:30` is not the New York
wall-clock time of the instant of the edit either. -/
theorem consistency_counterexample :
    Reachable sampleEnv marchState
    ∧ "America-New_York" ∈ marchState.timezones.keys
    ∧ "UTC" ∈ marchState.timezones.keys
    ∧ (handleTimeChange sampleEnv marchState "America-New_York" 150).selectedTimes.entries
        = [("Asia/Kolkata", "13:00"), ("UTC", "07:30"), ("Asia-Tokyo", "16:30"),
           ("America-New_York", "02:30")]
    ∧ reexpress sampleEnv (handleTimeChange sampleEnv marchState "America-New_York" 150)
        "UTC" "America-New_York" = some "03:30"
    ∧ ¬ PairConsistent sampleEnv (handleTimeChange sampleEnv marchState "America-New_York" 150)
        "UTC" "America-New_York"
    ∧ formatHHmm ((momentUtc (editInstant sampleEnv marchState "America-New_York" 150)).tz
        sampleEnv "America/New_York").wall = "03:30" :=
  ⟨reachable_marchState, by decide⟩

/-- C1, amended.  Assume the browser zone and the zone of every key of `timezones`
are in the catalog and keep one UTC offset, of at most a day, for all instants and
readings within three days (4320 minutes) of `selectedDate`: no daylight-saving
switch near the anchor date.  Then for every key `zone` of `timezones` and every
`value` in `[0, 1440)`, after `handleTimeChange(zone, value)` every pair of keys of
`timezones` is consistent; every stored entry is the `HH:mm` wall-clock time, in
the zone of its key, of the one instant of the edit; and that instant is the anchor
date's midnight plus `value`, read as wall-clock time of the zone of `zone`. -/
theorem consistency_after_edit (env : Env) (s : State) (zone : String) (value cL : Int)
    (hv0 : 0 ≤ value) (hv1 : value < 1440) (hzone : zone ∈ s.timezones.keys)
    (hcL : -1440 ≤ cL ∧ cL ≤ 1440) (hloc : env.localZone.SteadyNear cL s.selectedDate 4320)
    (hzones : ∀ e ∈ s.timezones.entries, ∃ z c, env.getZone e.2 = some z
      ∧ (-1440 ≤ c ∧ c ≤ 1440) ∧ z.SteadyNear c s.selectedDate 4320) :
    (∀ z1 ∈ s.timezones.keys, ∀ z2 ∈ s.timezones.keys,
        PairConsistent env (handleTimeChange env s zone value) z1 z2)
    ∧ (∀ e ∈ s.timezones.entries,
        (handleTimeChange env s zone value).selectedTimes.get? e.1
          = some (formatHHmm ((momentUtc (editInstant env s zone value)).tz env e.2).wall))
    ∧ editInstant env s zone value
        = (momentTzParse env (anchorMidnight env s + value) (s.timezones.get? zone)).instant := by
  obtain ⟨nameZ, hmemZ, hgetZ⟩ := exists_entry_of_mem_keys s.timezones zone hzone
  obtain ⟨zZ, cZ, hzZ, hcZ, hstZ⟩ := hzones (zone, nameZ) hmemZ
  have hR := updatedDateTime_of_steady env s.selectedDate value cL hv0 hv1 hcL hloc
  have hmid : anchorMidnight env s = (s.selectedDate + cL) / 1440 * 1440 := by
    simp only [anchorMidnight, momentLocal, Moment.wall, dayOf,
      (hloc s.selectedDate (by omega) (by omega)).1]
  have hI : editInstant env s zone value
      = (s.selectedDate + cL) / 1440 * 1440 + value - cZ := by
    unfold editInstant
    rw [hR, hgetZ]
    exact momentTzParse_instant_of_steady env nameZ zZ s.selectedDate _ cZ hzZ hstZ (by omega)
  have hstored : ∀ k name z c, (k, name) ∈ s.timezones.entries → env.getZone name = some z →
      z.SteadyNear c s.selectedDate 4320 →
      (handleTimeChange env s zone value).selectedTimes.get? k
        = some (formatHHmm ((s.selectedDate + cL) / 1440 * 1440 + value - cZ + c)) :=
    fun k name z c hmem hz hst =>
      stored_after_edit_of_steady env s zone value cL hv0 hv1 hcL hloc nameZ zZ cZ hmemZ hzZ hcZ
        hstZ k name z c hmem hz hst
  refine ⟨?_, ?_, ?_⟩
  · intro z1 hz1 z2 hz2
    obtain ⟨name1, hmem1, hget1⟩ := exists_entry_of_mem_keys s.timezones z1 hz1
    obtain ⟨name2, hmem2, hget2⟩ := exists_entry_of_mem_keys s.timezones z2 hz2
    obtain ⟨zn1, c1, hzn1, hc1, hst1⟩ := hzones (z1, name1) hmem1
    obtain ⟨zn2, c2, hzn2, hc2, hst2⟩ := hzones (z2, name2) hmem2
    have hs1 := hstored z1 name1 zn1 c1 hmem1 hzn1 hst1
    have hs2 := hstored z2 name2 zn2 c2 hmem2 hzn2 hst2
    have hget1' : (handleTimeChange env s zone value).timezones.get? z1 = some name1 := hget1
    have hget2' : (handleTimeChange env s zone value).timezones.get? z2 = some name2 := hget2
    have hmid' : anchorMidnight env (handleTimeChange env s zone value)
        = (s.selectedDate + cL) / 1440 * 1440 := hmid
    have hre : reexpress env (handleTimeChange env s zone value) z1 z2
        = some (formatHHmm ((s.selectedDate + cL) / 1440 * 1440 + value - cZ + c2)) := by
      simp only [reexpress, hs1, hget1', hget2', hmid', durationAsMinutes_formatHHmm]
      have hlt := minuteOfDay_lt ((s.selectedDate + cL) / 1440 * 1440 + value - cZ + c1)
      have hi := momentTzParse_instant_of_steady env name1 zn1 s.selectedDate
        ((s.selectedDate + cL) / 1440 * 1440
          + (minuteOfDay ((s.selectedDate + cL) / 1440 * 1440 + value - cZ + c1) : Int))
        c1 hzn1 hst1 (by omega)
      rw [tz_wall_of_steady env name2 zn2 _ s.selectedDate c2 hzn2 hst2 (by rw [hi]; omega), hi]
      congr 1
      apply formatHHmm_congr
      unfold minuteOfDay
      omega
    exact ⟨by rw [hre]; rfl, by rw [hre, hs2]⟩
  · intro e he
    obtain ⟨z, c, hz, hc, hst⟩ := hzones e he
    rw [hstored e.1 e.2 z c he hz hst, hI,
      tz_wall_of_steady env e.2 z _ s.selectedDate c hz hst (by simp only [momentUtc]; omega)]
    rfl
  · unfold editInstant
    rw [hR, hmid]

theorem fixedZone_steady (abbr : String) (c a r : Int) :
    (fixedZone abbr c).SteadyNear c a r :=
  fun _ _ _ => ⟨rfl, rfl⟩

/-- New York stays on EST (UTC-5) within three days of 2024-01-15. -/
theorem newYork_steady_january : newYork.SteadyNear (-300) (minutesOf 2024 1 15 0 0) 4320 := by
  have e0 : minutesOf 2024 1 15 0 0 = 28421280 := by decide
  have e1 : minutesOf 2023 3 12 7 0 = 27976740 := by decide
  have e2 : minutesOf 2023 11 5 6 0 = 28319400 := by decide
  have e3 : minutesOf 2024 3 10 7 0 = 28500900 := by decide
  intro t h1 h2
  rw [e0] at h1 h2
  simp only [newYork, tableZone, tableUtcOffset, tableParse, e1, e2, e3]
  constructor
  · rw [if_neg (by omega), if_neg (by omega), if_pos (by omega)]
  · rw [if_neg (by norm_num; omega), if_neg (by norm_num; omega), if_pos (by norm_num; omega)]

/-- Witness for C1: the four sample zones, anchor date 2024-01-15, `UTC` edited to
23:45. -/
theorem consistency_after_edit_witness :
    (∀ z1 ∈ januaryFourZones.timezones.keys, ∀ z2 ∈ januaryFourZones.timezones.keys,
        PairConsistent sampleEnv (handleTimeChange sampleEnv januaryFourZones "UTC" 1425) z1 z2)
    ∧ (∀ e ∈ januaryFourZones.timezones.entries,
        (handleTimeChange sampleEnv januaryFourZones "UTC" 1425).selectedTimes.get? e.1
          = some (formatHHmm ((momentUtc (editInstant sampleEnv januaryFourZones "UTC" 1425)).tz
              sampleEnv e.2).wall))
    ∧ editInstant sampleEnv januaryFourZones "UTC" 1425
        = (momentTzParse sampleEnv (anchorMidnight sampleEnv januaryFourZones + 1425)
            (januaryFourZones.timezones.get? "UTC")).instant :=
  consistency_after_edit sampleEnv januaryFourZones "UTC" 1425 0 (by decide) (by decide)
    (by decide) (by decide) (fixedZone_steady "UTC" 0 _ 4320)
    (by
      have hent : januaryFourZones.timezones.entries
          = [("Asia/Kolkata", "Asia/Kolkata"), ("UTC", "UTC"), ("Asia-Tokyo", "Asia/Tokyo"),
             ("America-New_York", "America/New_York")] := by decide
      intro e he
      rw [hent] at he
      simp only [List.mem_cons, List.mem_singleton, List.not_mem_nil, or_false] at he
      rcases he with h | h | h | h
      · subst h
        exact ⟨fixedZone "IST" 330, 330, rfl, by decide, fixedZone_steady _ _ _ _⟩
      · subst h
        exact ⟨fixedZone "UTC" 0, 0, rfl, by decide, fixedZone_steady _ _ _ _⟩
      · subst h
        exact ⟨fixedZone "JST" 540, 540, rfl, by decide, fixedZone_steady _ _ _ _⟩
      · subst h
        exact ⟨newYork, -300, rfl, by decide, newYork_steady_january⟩)

/-! ## Add-zone bootstrap (C6) -/

/-- C6.  For every state and every zone identifier of the catalog, `addNewTimezone`
stores, under the key derived from the identifier, the `HH:mm` of the current
instant on the clock of that zone, and files the identifier under the same key.
The stored value depends on the current instant and the identifier only: it is the
same from any other state, whatever its anchor date and stored times.  In
`addedAfterEdit` the new entry is therefore not consistent with the entry of
`UTC`, which an edit had set to 23:45 on 2024-01-15. -/
theorem addNewTimezone_bootstrap (env : Env) (now : Int) (s : State) (label : String)
    (z : Zone) (hz : env.getZone label = some z) :
    (addNewTimezone env now s label).selectedTimes.get? (replaceAll label '/' '-')
        = some (formatHHmm (now + z.utcOffset now))
    ∧ (addNewTimezone env now s label).timezones.get? (replaceAll label '/' '-') = some label
    ∧ (∀ s' : State,
        (addNewTimezone env now s' label).selectedTimes.get? (replaceAll label '/' '-')
          = (addNewTimezone env now s label).selectedTimes.get? (replaceAll label '/' '-'))
    ∧ ¬ PairConsistent sampleEnv addedAfterEdit "UTC" "America-New_York" := by
  have hval : ∀ s' : State,
      (addNewTimezone env now s' label).selectedTimes.get? (replaceAll label '/' '-')
        = some (formatHHmm (now + z.utcOffset now)) := by
    intro s'
    show lookupEntry _ (setEntry _ _ s'.selectedTimes.entries) = _
    rw [lookupEntry_setEntry_self]
    simp only [Moment.tz, hz, momentLocal, Moment.wall]
  refine ⟨hval s, ?_, fun s' => (hval s').trans (hval s).symm, by decide⟩
  show lookupEntry _ (setEntry _ _ s.timezones.entries) = _
  exact lookupEntry_setEntry_self _ _ _

/-- Witness for C6: `America/New_York` added at 2024-06-01T10:07Z after `UTC` was
edited to 23:45 on the anchor date 2024-01-15: the new entry holds `06:07`, the
current time in New York. -/
theorem addNewTimezone_bootstrap_witness :
    addedAfterEdit.selectedTimes.get? "America-New_York" = some "06:07"
    ∧ addedAfterEdit.timezones.get? "America-New_York" = some "America/New_York"
    ∧ reexpress sampleEnv addedAfterEdit "UTC" "America-New_York" = some "18:45" :=
  ⟨(addNewTimezone_bootstrap sampleEnv sampleNow
      (handleTimeChange sampleEnv januaryState "UTC" 1425) "America/New_York" newYork rfl).1,
   (addNewTimezone_bootstrap sampleEnv sampleNow
      (handleTimeChange sampleEnv januaryState "UTC" 1425) "America/New_York" newYork rfl).2.1,
   by decide⟩

/-! ## Supporting facts: states left by an edit, the displayed date, the displayed order -/

theorem entries_ext_of_lookup {α : Type} (l1 l2 : List (String × α))
    (hkeys : l1.map Prod.fst = l2.map Prod.fst) (hnd : (l1.map Prod.fst).Nodup)
    (hval : ∀ k ∈ l1.map Prod.fst, lookupEntry k l1 = lookupEntry k l2) : l1 = l2 := by
  induction l1 generalizing l2 with
  | nil =>
    cases l2 with
    | nil => rfl
    | cons b rest => simp at hkeys
  | cons a rest ih =>
    cases l2 with
    | nil => simp at hkeys
    | cons b rest2 =>
      obtain ⟨k1, v1⟩ := a
      obtain ⟨k2, v2⟩ := b
      simp only [List.map_cons, List.cons.injEq] at hkeys
      obtain ⟨hk, hrest⟩ := hkeys
      subst hk
      simp only [List.map_cons, List.nodup_cons] at hnd
      have hv : v1 = v2 := by
        have := hval k1 (by simp)
        simpa [lookupEntry] using this
      subst hv
      congr 1
      apply ih rest2 hrest hnd.2
      intro k hk
      have hne : ¬ k1 = k := fun hc => hnd.1 (hc ▸ hk)
      have := hval k (by simp [hk])
      simpa [lookupEntry, hne] using this

theorem keys_foldl_setEntry_of_mem {α β : Type} (p : β → Bool) (f : β → String) (g : β → α)
    (l : List β) (init : List (String × α))
    (h : ∀ e ∈ l, p e = true → f e ∈ init.map Prod.fst) :
    (l.foldl (fun acc e => if p e then setEntry (f e) (g e) acc else acc) init).map Prod.fst
      = init.map Prod.fst := by
  induction l generalizing init with
  | nil => rfl
  | cons e rest ih =>
    simp only [List.foldl_cons]
    by_cases hp : p e = true
    · simp only [hp, if_true]
      have hk := keys_setEntry_of_mem (f e) (g e) init (h e (List.mem_cons_self _ _) hp)
      rw [ih _ (by
        intro e' he' hp'
        rw [hk]
        exact h e' (List.mem_cons_of_mem _ he') hp'), hk]
    · simp only [hp]
      exact ih init (fun e' he' hp' => h e' (List.mem_cons_of_mem _ he') hp')

/-- In a state left by an edit, under the steadiness assumptions of C1, re-entering
the stored time of any key of `timezones` leaves the stored-times mapping as it
is. -/
theorem edit_leaves_fixed_point (env : Env) (s : State) (zone : String) (value cL : Int)
    (hv0 : 0 ≤ value) (hv1 : value < 1440) (hzone : zone ∈ s.timezones.keys)
    (hcL : -1440 ≤ cL ∧ cL ≤ 1440) (hloc : env.localZone.SteadyNear cL s.selectedDate 4320)
    (hzones : ∀ e ∈ s.timezones.entries, ∃ z c, env.getZone e.2 = some z
      ∧ (-1440 ≤ c ∧ c ≤ 1440) ∧ z.SteadyNear c s.selectedDate 4320)
    (key : String) (hkey : key ∈ s.timezones.keys) :
    ∃ time, (handleTimeChange env s zone value).selectedTimes.get? key = some time
      ∧ (handleTimeChange env (handleTimeChange env s zone value) key
          (durationAsMinutes time)).selectedTimes
        = (handleTimeChange env s zone value).selectedTimes := by
  obtain ⟨nameZ, hmemZ, _⟩ := exists_entry_of_mem_keys s.timezones zone hzone
  obtain ⟨zZ, cZ, hzZ, hcZ, hstZ⟩ := hzones (zone, nameZ) hmemZ
  obtain ⟨nameK, hmemK, _⟩ := exists_entry_of_mem_keys s.timezones key hkey
  obtain ⟨zK, cK, hzK, hcK, hstK⟩ := hzones (key, nameK) hmemK
  have hstored : ∀ k name z c, (k, name) ∈ s.timezones.entries → env.getZone name = some z →
      z.SteadyNear c s.selectedDate 4320 →
      (handleTimeChange env s zone value).selectedTimes.get? k
        = some (formatHHmm ((s.selectedDate + cL) / 1440 * 1440 + value - cZ + c)) :=
    fun k name z c hmem hz hst =>
      stored_after_edit_of_steady env s zone value cL hv0 hv1 hcL hloc nameZ zZ cZ hmemZ hzZ hcZ
        hstZ k name z c hmem hz hst
  refine ⟨_, hstored key nameK zK cK hmemK hzK hstK, ?_⟩
  rw [durationAsMinutes_formatHHmm]
  have hlt := minuteOfDay_lt ((s.selectedDate + cL) / 1440 * 1440 + value - cZ + cK)
  have hstored2 : ∀ k name z c, (k, name) ∈ s.timezones.entries → env.getZone name = some z →
      z.SteadyNear c s.selectedDate 4320 →
      (handleTimeChange env (handleTimeChange env s zone value) key
          (minuteOfDay ((s.selectedDate + cL) / 1440 * 1440 + value - cZ + cK) : Int)).selectedTimes.get? k
        = some (formatHHmm ((s.selectedDate + cL) / 1440 * 1440
            + (minuteOfDay ((s.selectedDate + cL) / 1440 * 1440 + value - cZ + cK) : Int)
            - cK + c)) :=
    fun k name z c hmem hz hst =>
      stored_after_edit_of_steady env (handleTimeChange env s zone value) key _ cL (by omega)
        (by omega) hcL hloc nameK zK cK hmemK hzK hcK hstK k name z c hmem hz hst
  apply JsObject.ext
  have hsub : ∀ k, k ∈ s.timezones.keys →
      k ∈ (handleTimeChange env s zone value).selectedTimes.entries.map Prod.fst :=
    fun k hk => (mem_keys_handleTimeChange env s zone value k).mpr (Or.inr (Or.inr hk))
  have hkeys : (handleTimeChange env (handleTimeChange env s zone value) key
        (minuteOfDay ((s.selectedDate + cL) / 1440 * 1440 + value - cZ + cK) : Int)).selectedTimes.entries.map
          Prod.fst
      = (handleTimeChange env s zone value).selectedTimes.entries.map Prod.fst := by
    rw [handleTimeChange_entries]
    rw [keys_foldl_setEntry_of_mem]
    · exact keys_setEntry_of_mem _ _ _ (hsub key hkey)
    · intro e he _
      rw [keys_setEntry_of_mem _ _ _ (hsub key hkey)]
      exact hsub e.1 (List.mem_map_of_mem Prod.fst he)
  apply entries_ext_of_lookup _ _ hkeys
    (handleTimeChange env (handleTimeChange env s zone value) key _).selectedTimes.nodup
  intro k _
  by_cases hk : k ∈ s.timezones.keys
  · obtain ⟨name, hmem, _⟩ := exists_entry_of_mem_keys s.timezones k hk
    obtain ⟨z, c, hz, _, hst⟩ := hzones (k, name) hmem
    have h1 := hstored k name z c hmem hz hst
    have h2 := hstored2 k name z c hmem hz hst
    unfold JsObject.get? at h1 h2
    rw [h1, h2]
    congr 1
    apply formatHHmm_congr
    unfold minuteOfDay
    omega
  · rw [handleTimeChange_entries]
    have hne : k ≠ key := fun hc => hk (hc ▸ hkey)
    rw [lookupEntry_foldl_of_not_written (fun e : String × String => decide (e.1 ≠ key))
        (fun e => e.1) _ _ _ k
        (by
          intro e he _ hc
          exact hk (hc ▸ List.mem_map_of_mem Prod.fst he))]
    exact lookupEntry_setEntry_of_ne _ _ _ _ hne

/-! ## Round trip of an edit (C3) -/

/-- Every zone of `januaryFourZones` is in the sample catalog and keeps one offset
within three days of 2024-01-15. -/
theorem januaryFourZones_steady :
    ∀ e ∈ januaryFourZones.timezones.entries, ∃ z c, sampleEnv.getZone e.2 = some z
      ∧ (-1440 ≤ c ∧ c ≤ 1440) ∧ z.SteadyNear c januaryFourZones.selectedDate 4320 := by
  have hent : januaryFourZones.timezones.entries
      = [("Asia/Kolkata", "Asia/Kolkata"), ("UTC", "UTC"), ("Asia-Tokyo", "Asia/Tokyo"),
         ("America-New_York", "America/New_York")] := by decide
  intro e he
  rw [hent] at he
  simp only [List.mem_cons, List.mem_singleton, List.not_mem_nil, or_false] at he
  rcases he with h | h | h | h
  · subst h
    exact ⟨fixedZone "IST" 330, 330, rfl, by decide, fixedZone_steady _ _ _ _⟩
  · subst h
    exact ⟨fixedZone "UTC" 0, 0, rfl, by decide, fixedZone_steady _ _ _ _⟩
  · subst h
    exact ⟨fixedZone "JST" 540, 540, rfl, by decide, fixedZone_steady _ _ _ _⟩
  · subst h
    exact ⟨newYork, -300, rfl, by decide, newYork_steady_january⟩

/-- C3, amended.  (a) For every state `st`, key `Z` and values `T`, `T0`, the edit
`handleTimeChange(Z, T)` followed by `handleTimeChange(Z, T0)` yields the state
that `handleTimeChange(Z, T0)` alone yields on `st`; so the two edits restore the
stored-times mapping of `st` if and only if re-entering `T0` in the row of `Z`
leaves that mapping as it is.  (b) In every state left by an edit
`handleTimeChange(zone, value)`, `zone` a key of `timezones` and `value` in
`[0, 1440)`, when the browser zone and the zone of every key are in the catalog and
keep one UTC offset, of at most a day, within three days of `selectedDate`, every
key `Z` of `timezones` has a stored time, and with `T0` the minutes of that time,
`handleTimeChange(Z, T)` followed by `handleTimeChange(Z, T0)` restores the
stored-times mapping entry for entry, for every value `T`. -/
theorem handleTimeChange_round_trip (env : Env) :
    (∀ (st : State) (Z : String) (T T0 : Int),
        handleTimeChange env (handleTimeChange env st Z T) Z T0 = handleTimeChange env st Z T0
        ∧ ((handleTimeChange env (handleTimeChange env st Z T) Z T0).selectedTimes
              = st.selectedTimes
            ↔ (handleTimeChange env st Z T0).selectedTimes = st.selectedTimes))
    ∧ (∀ (s : State) (zone : String) (value cL : Int),
        0 ≤ value → value < 1440 → zone ∈ s.timezones.keys →
        (-1440 ≤ cL ∧ cL ≤ 1440) → env.localZone.SteadyNear cL s.selectedDate 4320 →
        (∀ e ∈ s.timezones.entries, ∃ z c, env.getZone e.2 = some z
          ∧ (-1440 ≤ c ∧ c ≤ 1440) ∧ z.SteadyNear c s.selectedDate 4320) →
        ∀ (Z : String), Z ∈ s.timezones.keys → ∀ (T : Int),
          ∃ time, (handleTimeChange env s zone value).selectedTimes.get? Z = some time
            ∧ (handleTimeChange env
                  (handleTimeChange env (handleTimeChange env s zone value) Z T) Z
                  (durationAsMinutes time)).selectedTimes
                = (handleTimeChange env s zone value).selectedTimes) := by
  refine ⟨?_, ?_⟩
  · intro st Z T T0
    have h := handleTimeChange_absorb env st Z T T0
    exact ⟨h, by rw [h]⟩
  · intro s zone value cL hv0 hv1 hzone hcL hloc hzones Z hZ T
    obtain ⟨time, hget, hfix⟩ :=
      edit_leaves_fixed_point env s zone value cL hv0 hv1 hzone hcL hloc hzones Z hZ
    refine ⟨time, hget, ?_⟩
    rw [handleTimeChange_absorb env (handleTimeChange env s zone value) Z T
      (durationAsMinutes time)]
    exact hfix

/-- Witness for C3: the four sample zones on 2024-01-15 after `UTC` was edited to
23:45.  The row of `America-New_York` then holds `18:45`; moving it to 10:00 and
back to 18:45 restores the four stored times. -/
theorem handleTimeChange_round_trip_witness :
    (∃ time, (handleTimeChange sampleEnv januaryFourZones "UTC" 1425).selectedTimes.get?
          "America-New_York" = some time
        ∧ (handleTimeChange sampleEnv
              (handleTimeChange sampleEnv (handleTimeChange sampleEnv januaryFourZones "UTC" 1425)
                "America-New_York" 600)
              "America-New_York" (durationAsMinutes time)).selectedTimes
            = (handleTimeChange sampleEnv januaryFourZones "UTC" 1425).selectedTimes)
    ∧ (handleTimeChange sampleEnv januaryFourZones "UTC" 1425).selectedTimes.get?
          "America-New_York" = some "18:45"
    ∧ (handleTimeChange sampleEnv (handleTimeChange sampleEnv januaryFourZones "UTC" 1425)
          "America-New_York" 600).selectedTimes.entries
        = [("Asia/Kolkata", "20:30"), ("UTC", "15:00"), ("Asia-Tokyo", "00:00"),
           ("America-New_York", "10:00")]
    ∧ (handleTimeChange sampleEnv
          (handleTimeChange sampleEnv (handleTimeChange sampleEnv januaryFourZones "UTC" 1425)
            "America-New_York" 600)
          "America-New_York" (durationAsMinutes "18:45")).selectedTimes.entries
        = [("Asia/Kolkata", "05:15"), ("UTC", "23:45"), ("Asia-Tokyo", "08:45"),
           ("America-New_York", "18:45")] :=
  ⟨(handleTimeChange_round_trip sampleEnv).2 januaryFourZones "UTC" 1425 0 (by decide)
      (by decide) (by decide) (by decide) (fixedZone_steady "UTC" 0 _ 4320)
      januaryFourZones_steady "America-New_York" (by decide) 600,
    by decide, by decide, by decide⟩

theorem formatDddDMMMM_congr (a b : Int) (h : dayOf a = dayOf b) :
    formatDddDMMMM a = formatDddDMMMM b := by
  unfold formatDddDMMMM
  rw [h]

/-- The date a row shows.  For a key whose zone is steady around the anchor date and
any `localTime` in `[0, 1440)`, `formatDisplayDate` gives the anchor date itself,
whatever the zone: the reading is built on the anchor date and only read in the
zone, never converted into it. -/
theorem formatDisplayDate_eq_anchor (env : Env) (s : State) (zone name : String) (z : Zone)
    (minutes cL c : Int) (hm0 : 0 ≤ minutes) (hm1 : minutes < 1440)
    (hcL : -1440 ≤ cL ∧ cL ≤ 1440) (hloc : env.localZone.SteadyNear cL s.selectedDate 4320)
    (hget : s.timezones.get? zone = some name) (hz : env.getZone name = some z)
    (hc : -1440 ≤ c ∧ c ≤ 1440) (hst : z.SteadyNear c s.selectedDate 4320) :
    formatDisplayDate env s zone minutes = formatDddDMMMM (anchorMidnight env s) := by
  have hR := updatedDateTime_of_steady env s.selectedDate minutes cL hm0 hm1 hcL hloc
  have hmid : anchorMidnight env s = (s.selectedDate + cL) / 1440 * 1440 := by
    simp only [anchorMidnight, momentLocal, Moment.wall, dayOf,
      (hloc s.selectedDate (by omega) (by omega)).1]
  have h1 := (hst ((s.selectedDate + cL) / 1440 * 1440 + minutes) (by omega) (by omega)).2
  have h2 := (hst ((s.selectedDate + cL) / 1440 * 1440 + minutes - c) (by omega) (by omega)).1
  unfold formatDisplayDate
  rw [hR, hget, hmid]
  apply formatDddDMMMM_congr
  simp only [momentTzParse, hz, Moment.tz, momentUtc, Moment.wall, h1, h2, dayOf]
  omega

/-- The order displayed after a drag: the moved array when the reverse toggle is off,
its reverse when the toggle is on. -/
theorem displayedOrder_onDragEnd (s : State) (a b : String) (r : List (String × String))
    (hab : a ≠ b)
    (h : arrayMove (timezoneEntries s)
          (findIndex (fun e => decide (e.1 = a)) (timezoneEntries s))
          (findIndex (fun e => decide (e.1 = b)) (timezoneEntries s)) = some r) :
    displayedOrder (onDragEnd s a b)
      = if s.reverseOrder then (r.map Prod.fst).reverse else r.map Prod.fst := by
  have hent := onDragEnd_entries s a b r hab h
  have hrev : (onDragEnd s a b).reverseOrder = s.reverseOrder := by
    simp only [onDragEnd, hab, ne_eq, not_false_eq_true, if_true, h]
  unfold displayedOrder timezoneEntries
  rw [hrev, hent]
  split
  · rw [List.map_reverse]
  · rfl

/-- The row label gives back an identifier that has no hyphen. -/
theorem label_round_trip_of_no_hyphen (label : String) (h : '-' ∉ label.data) :
    replaceAll (replaceAll label '/' '-') '-' '/' = label := by
  have hmap : ∀ l : List Char, '-' ∉ l →
      List.map (fun x => if x = '-' then '/' else x)
        (List.map (fun x => if x = '/' then '-' else x) l) = l := by
    intro l hl
    induction l with
    | nil => rfl
    | cons c rest ih =>
      simp only [List.mem_cons, not_or] at hl
      simp only [List.map_cons, ih hl.2, List.cons.injEq, and_true]
      by_cases hc : c = '/'
      · simp [hc]
      · have hc' : ¬ c = '-' := fun h' => hl.1 h'.symm
        simp [hc, hc']
  unfold replaceAll
  simp only [hmap label.data h]

end TimezoneConverter
